import Mathlib

/-!
Verification of the EVCS data scraper (`evcs_scraper.py`).

This file gives a shallow embedding of the data-normalisation and export
pipeline of the scraper: the station aggregation loop of
`extract_station_data`, the charge-point extraction `extract_chargepoints`,
the summary enrichment and flattened export of `process_and_export_data`,
the notification wrapper `send_email_notification`, and the orchestration
method `run`.

JSON payloads are modelled by the type `JVal` below.  Python dictionaries
are modelled as insertion-ordered association lists (CPython dicts preserve
insertion order, and assignment to an existing key keeps its position);
parsed JSON objects have no duplicate keys, and no duplicate keys are ever
constructed here.  Python truthiness, `or`, `str()`, `in`, subscripting and
iteration are modelled by the `truthy`, `pyOr`, `pyStr`, `pyIn`,
`pySubscript` and `iterElems` functions.  Exceptions raised by the embedded
code are modelled with `Except String`; the string is a description of the
Python exception.

The network/browser layer (selenium-wire) and the gzip/brotli decompression
of response bodies are external to the repository; a captured response is
therefore abstracted as a `RespOutcome`: either it is filtered out by the
URL/content-type test, or its decode+`json.loads` stage raised, or it
produced a parsed JSON payload.  Everything from that point on is modelled
from the source.
-/

mutual

/-- A Python/JSON value as handled by the scraper. -/
inductive JVal where
  | null
  | bool (b : Bool)
  | num (n : Int)
  | str (s : String)
  | arr (elems : JArr)
  | obj (fields : JObj)
deriving DecidableEq

/-- A JSON array (spine made explicit so equality can be derived). -/
inductive JArr where
  | nil
  | cons (hd : JVal) (tl : JArr)
deriving DecidableEq

/-- A JSON object: insertion-ordered key/value fields. -/
inductive JObj where
  | nil
  | cons (key : String) (val : JVal) (tl : JObj)
deriving DecidableEq

end

def JArr.toList : JArr → List JVal
  | .nil => []
  | .cons x tl => x :: tl.toList

def JArr.ofList : List JVal → JArr
  | [] => .nil
  | x :: xs => .cons x (JArr.ofList xs)

def JArr.snoc : JArr → JVal → JArr
  | .nil, v => .cons v .nil
  | .cons x tl, v => .cons x (tl.snoc v)

def JObj.toList : JObj → List (String × JVal)
  | .nil => []
  | .cons k v tl => (k, v) :: tl.toList

def JObj.ofList : List (String × JVal) → JObj
  | [] => .nil
  | (k, v) :: tl => .cons k v (JObj.ofList tl)

theorem JArr.arrRoundTrip (l : List JVal) : (JArr.ofList l).toList = l := by
  induction l with
  | nil => rfl
  | cons x xs ih => simp [JArr.ofList, JArr.toList, ih]

theorem JArr.toList_snoc : (a : JArr) → (v : JVal) → (a.snoc v).toList = a.toList ++ [v]
  | .nil, _ => rfl
  | .cons x tl, v => by simp [JArr.snoc, JArr.toList, JArr.toList_snoc tl v]

theorem JObj.objRoundTrip (l : List (String × JVal)) : (JObj.ofList l).toList = l := by
  induction l with
  | nil => rfl
  | cons x xs ih => cases x; simp [JObj.ofList, JObj.toList, ih]

/-- Convenience constructor for concrete inputs. -/
def JVal.mkObj (l : List (String × JVal)) : JVal := .obj (JObj.ofList l)

/-- Convenience constructor for concrete inputs. -/
def JVal.mkArr (l : List JVal) : JVal := .arr (JArr.ofList l)

/-- A Python dict as carried around by the scraper (a station record, a
flattened row): an insertion-ordered association list. -/
abbrev PyDict := List (String × JVal)

/-- First binding of a key in a dict (CPython dicts are unordered maps, but
the scraper only builds duplicate-free dicts, so first-match lookup agrees). -/
def lookupKV : PyDict → String → Option JVal
  | [], _ => none
  | (k', v) :: rest, k => if k' = k then some v else lookupKV rest k

/-- `d.get(k)`: `None` when the key is absent. -/
def pyGetD (d : PyDict) (k : String) : JVal := (lookupKV d k).getD .null

/-- `k in d` for a dict. -/
def hasKeyL (d : PyDict) (k : String) : Bool := d.any (fun kv => kv.1 = k)

/-- `d[k] = v`: overwrite in place when the key exists (its position is
kept, as in CPython), append at the end otherwise. -/
def setKey : PyDict → String → JVal → PyDict
  | [], k, v => [(k, v)]
  | (k', v') :: rest, k, v =>
    if k' = k then (k', v) :: rest else (k', v') :: setKey rest k v

/-- `del d[k]` (a no-op when the key is absent; the source guards the
delete with a `k in d` test, which gives the same result). -/
def delKey (d : PyDict) (k : String) : PyDict := d.filter (fun kv => kv.1 ≠ k)

/-- Python truthiness of a value (`bool(v)`). -/
def truthy : JVal → Bool
  | .null => false
  | .bool b => b
  | .num n => n ≠ 0
  | .str s => ¬s.isEmpty
  | .arr a => ¬a.toList.isEmpty
  | .obj o => ¬o.toList.isEmpty

/-- Python `a or b`: the first operand when it is truthy, otherwise the
second operand (whatever its truthiness). -/
def pyOr (a b : JVal) : JVal := if truthy a then a else b

mutual

/-- Python `repr()` for the JSON fragment of values (quote-escaping inside
strings is not modelled; no string handled here contains a quote). -/
def pyReprV : JVal → String
  | .null => "None"
  | .bool true => "True"
  | .bool false => "False"
  | .num n => toString n
  | .str s => "\x27" ++ s ++ "\x27"
  | .arr xs => "[" ++ pyReprA xs ++ "]"
  | .obj kvs => "\x7b" ++ pyReprO kvs ++ "\x7d"

def pyReprA : JArr → String
  | .nil => ""
  | .cons x .nil => pyReprV x
  | .cons x tl => pyReprV x ++ ", " ++ pyReprA tl

def pyReprO : JObj → String
  | .nil => ""
  | .cons k v .nil => "\x27" ++ k ++ "\x27: " ++ pyReprV v
  | .cons k v tl => "\x27" ++ k ++ "\x27: " ++ pyReprV v ++ ", " ++ pyReprO tl

end

/-- Python `str()`: the string itself for strings, `repr`-style rendering
for the other values appearing here. -/
def pyStr : JVal → String
  | .str s => s
  | v => pyReprV v

/-- Prefix test on character lists (for Python's substring `in`). -/
def charsPrefix : List Char → List Char → Bool
  | [], _ => true
  | _ :: _, [] => false
  | a :: as, b :: bs => a = b && charsPrefix as bs

def charsSubstr (needle : List Char) : List Char → Bool
  | [] => charsPrefix needle []
  | c :: cs => charsPrefix needle (c :: cs) || charsSubstr needle cs

/-- Python `needle in s` for strings. -/
def substrB (needle s : String) : Bool := charsSubstr needle.data s.data

/-- Python `k in v`: key test for dicts, membership for lists, substring
test for strings, `TypeError` otherwise. -/
def pyIn (k : String) : JVal → Except String Bool
  | .obj fs => .ok (hasKeyL fs.toList k)
  | .arr a => .ok (a.toList.contains (.str k))
  | .str s => .ok (substrB k s)
  | _ => .error "TypeError: argument is not iterable"

/-- Python `v[k]` with a string key: dict lookup (`KeyError` when absent),
`TypeError` on any non-dict. -/
def pySubscript : JVal → String → Except String JVal
  | .obj fs, k =>
    match lookupKV fs.toList k with
    | some x => .ok x
    | none => .error ("KeyError: " ++ k)
  | _, _ => .error "TypeError: indices must be integers"

/-- Python iteration `for x in v`: list elements, characters of a string,
keys of a dict; `TypeError` otherwise. -/
def iterElems : JVal → Except String (List JVal)
  | .arr a => .ok a.toList
  | .str s => .ok (s.data.map (fun c => .str (String.mk [c])))
  | .obj fs => .ok (fs.toList.map (fun kv => .str kv.1))
  | _ => .error "TypeError: object is not iterable"

/-! ### Python string ordering and `sorted`

Python compares strings lexicographically by code point; `sorted` applied
to a `set` of strings returns the unique duplicate-free ascending list.
The comparison and an insertion sort are modelled executably below. -/

def charLtB (a b : Char) : Bool := decide (a < b)

def lexLtB : List Char → List Char → Bool
  | [], [] => false
  | [], _ :: _ => true
  | _ :: _, [] => false
  | a :: as, b :: bs =>
    if charLtB a b then true
    else if charLtB b a then false
    else lexLtB as bs

/-- Python `a < b` on strings. -/
def strLtB (a b : String) : Bool := lexLtB a.data b.data

/-- Python `a <= b` on strings (the order `sorted` arranges by). -/
def strLeB (a b : String) : Bool := !(strLtB b a)

/-- The ordering predicate used in sortedness statements. -/
def sLe (a b : String) : Prop := strLeB a b = true

theorem lexLtB_irrefl : (a : List Char) → lexLtB a a = false
  | [] => rfl
  | c :: cs => by simp [lexLtB, charLtB, lexLtB_irrefl cs]

theorem lexLtB_eq_of_not : (a b : List Char) → lexLtB a b = false → lexLtB b a = false → a = b
  | [], [], _, _ => rfl
  | [], _ :: _, h1, _ => by simp [lexLtB] at h1
  | _ :: _, [], _, h2 => by simp [lexLtB] at h2
  | a :: as, b :: bs, h1, h2 => by
    simp only [lexLtB, charLtB] at h1 h2
    by_cases hab : a < b
    · simp [hab] at h1
    · by_cases hba : b < a
      · simp [hba] at h2
      · simp [hab, hba] at h1 h2
        have hcc : a = b := le_antisymm (le_of_not_lt hba) (le_of_not_lt hab)
        rw [hcc, lexLtB_eq_of_not as bs h1 h2]

theorem lexLtB_trans : (a b c : List Char) → lexLtB a b = true → lexLtB b c = true →
    lexLtB a c = true
  | [], _ :: _, _ :: _, _, _ => rfl
  | [], [], _, h1, _ => by simp [lexLtB] at h1
  | [], _ :: _, [], _, h2 => by simp [lexLtB] at h2
  | _ :: _, [], _, h1, _ => by simp [lexLtB] at h1
  | _ :: _, _ :: _, [], _, h2 => by simp [lexLtB] at h2
  | a :: as, b :: bs, c :: cs, h1, h2 => by
    simp only [lexLtB, charLtB] at h1 h2 ⊢
    rcases lt_trichotomy a b with hab | hab | hab
    · rcases lt_trichotomy b c with hbc | hbc | hbc
      · simp [lt_trans hab hbc]
      · subst hbc; simp [hab]
      · simp [not_lt_of_gt hbc, hbc] at h2
    · subst hab
      rcases lt_trichotomy a c with hac | hac | hac
      · simp [hac]
      · subst hac
        simp at h1 h2 ⊢
        exact lexLtB_trans as bs cs h1 h2
      · simp [not_lt_of_gt hac, hac] at h2
    · simp [not_lt_of_gt hab, hab] at h1

theorem lexLtB_asymm {a b : List Char} (h : lexLtB a b = true) : lexLtB b a = false := by
  by_contra hc
  rw [Bool.not_eq_false] at hc
  have h2 := lexLtB_trans _ _ _ h hc
  rw [lexLtB_irrefl] at h2
  exact Bool.false_ne_true h2

theorem strLeB_total (a b : String) : strLeB a b = true ∨ strLeB b a = true := by
  by_cases h : lexLtB b.data a.data = true
  · right
    simp only [strLeB, strLtB, lexLtB_asymm h, Bool.not_false]
  · left
    simp only [Bool.not_eq_true] at h
    simp only [strLeB, strLtB, h, Bool.not_false]

theorem strLeB_antisymm {a b : String} (h1 : strLeB a b = true) (h2 : strLeB b a = true) :
    a = b := by
  simp only [strLeB, strLtB, Bool.not_eq_true'] at h1 h2
  have h3 := lexLtB_eq_of_not a.data b.data h2 h1
  cases a; cases b
  exact congrArg String.mk h3

theorem strLeB_trans {a b c : String} (h1 : strLeB a b = true) (h2 : strLeB b c = true) :
    strLeB a c = true := by
  simp only [strLeB, strLtB, Bool.not_eq_true'] at h1 h2 ⊢
  by_contra hc
  rw [Bool.not_eq_false] at hc
  by_cases hab : lexLtB a.data b.data = true
  · by_cases hbc : lexLtB b.data c.data = true
    · have h3 := lexLtB_trans _ _ _ (lexLtB_trans _ _ _ hc hab) hbc
      rw [lexLtB_irrefl] at h3
      exact Bool.false_ne_true h3
    · rw [Bool.not_eq_true] at hbc
      have heq := lexLtB_eq_of_not _ _ hbc h2
      rw [heq] at h1
      rw [h1] at hc
      exact Bool.false_ne_true hc
  · rw [Bool.not_eq_true] at hab
    have heq := lexLtB_eq_of_not _ _ hab h1
    rw [← heq] at h2
    rw [h2] at hc
    exact Bool.false_ne_true hc

instance : IsAntisymm String sLe := ⟨fun _ _ => strLeB_antisymm⟩

/-- Insertion of one string into an ascending list. -/
def insertSorted (s : String) : List String → List String
  | [] => [s]
  | t :: ts => if strLeB s t then s :: t :: ts else t :: insertSorted s ts

/-- Model of Python `sorted` on a list of strings. -/
def sortStrs (l : List String) : List String := l.foldr insertSorted []

theorem mem_insertSorted {x s : String} : (l : List String) →
    (x ∈ insertSorted s l ↔ x = s ∨ x ∈ l)
  | [] => by simp [insertSorted]
  | t :: ts => by
    simp only [insertSorted]
    split
    · simp
    · simp only [List.mem_cons, mem_insertSorted ts]
      tauto

theorem insertSorted_perm (s : String) : (l : List String) →
    List.Perm (insertSorted s l) (s :: l)
  | [] => List.Perm.refl _
  | t :: ts => by
    simp only [insertSorted]
    split
    · exact List.Perm.refl _
    · exact ((insertSorted_perm s ts).cons t).trans (List.Perm.swap s t ts)

theorem insertSorted_sorted (s : String) : (l : List String) → l.Pairwise sLe →
    (insertSorted s l).Pairwise sLe
  | [], _ => by simp [insertSorted]
  | t :: ts, h => by
    rw [List.pairwise_cons] at h
    simp only [insertSorted]
    split
    · rename_i hst
      refine List.pairwise_cons.2 ⟨?_, List.pairwise_cons.2 h⟩
      intro x hx
      rcases List.mem_cons.1 hx with rfl | hx
      · exact hst
      · exact strLeB_trans hst (h.1 x hx)
    · rename_i hst
      refine List.pairwise_cons.2 ⟨?_, insertSorted_sorted s ts h.2⟩
      intro x hx
      rcases (mem_insertSorted ts).1 hx with rfl | hx
      · exact (strLeB_total t x).resolve_right hst
      · exact h.1 x hx

theorem sortStrs_perm : (l : List String) → List.Perm (sortStrs l) l
  | [] => List.Perm.refl _
  | x :: xs => by
    simp only [sortStrs, List.foldr]
    exact (insertSorted_perm x _).trans ((sortStrs_perm xs).cons x)

theorem sortStrs_sorted : (l : List String) → (sortStrs l).Pairwise sLe
  | [] => List.Pairwise.nil
  | x :: xs => insertSorted_sorted x _ (sortStrs_sorted xs)

theorem sortStrs_eq_of_perm {l₁ l₂ : List String} (h : List.Perm l₁ l₂) :
    sortStrs l₁ = sortStrs l₂ :=
  List.eq_of_perm_of_sorted ((sortStrs_perm l₁).trans (h.trans (sortStrs_perm l₂).symm))
    (sortStrs_sorted l₁) (sortStrs_sorted l₂)

theorem sortStrs_nodup {l : List String} (h : l.Nodup) : (sortStrs l).Nodup :=
  (sortStrs_perm l).nodup_iff.2 h

theorem sortStrs_eq_of_mem_iff {l₁ l₂ : List String} (h₁ : l₁.Nodup) (h₂ : l₂.Nodup)
    (h : ∀ s, s ∈ l₁ ↔ s ∈ l₂) : sortStrs l₁ = sortStrs l₂ :=
  sortStrs_eq_of_perm ((List.perm_ext_iff_of_nodup h₁ h₂).2 h)

/-- `set.add` as observed through `sorted`: accumulate without duplicates. -/
def setInsert (l : List String) (s : String) : List String :=
  if s ∈ l then l else l ++ [s]

theorem mem_setInsert {x s : String} {l : List String} :
    x ∈ setInsert l s ↔ x ∈ l ∨ x = s := by
  by_cases h : s ∈ l
  · simp only [setInsert, h, if_true]
    exact ⟨Or.inl, fun hx => hx.elim id (fun hxs => hxs ▸ h)⟩
  · simp [setInsert, h]

theorem setInsert_nodup {s : String} {l : List String} (h : l.Nodup) :
    (setInsert l s).Nodup := by
  by_cases hs : s ∈ l <;> simp [setInsert, hs, h, List.nodup_append]

/-! ### Station aggregation (`extract_station_data`, lines 146-204)

The loop over `json_data['props']['chargepoints']` merges charge-point
entries into `all_stations_dict`, an insertion-ordered dict keyed by the
entry's station identity.  `AggDict` models that dict. -/

/-- `all_stations_dict`: station identity (any JSON value) to station record. -/
abbrev AggDict := List (JVal × PyDict)

/-- First binding of an identity in the dict. -/
def aggFind : AggDict → JVal → Option PyDict
  | [], _ => none
  | (k', st) :: rest, k => if k' = k then some st else aggFind rest k

/-- `all_stations_dict[k] = st` when `k` is already a key: replace in place. -/
def aggReplace : AggDict → JVal → PyDict → AggDict
  | [], _, _ => []
  | (k', st') :: rest, k, st =>
    if k' = k then (k', st) :: rest else (k', st') :: aggReplace rest k st

/-- The station identity of a charge-point entry, when the entry is a dict
with a dict `station` sub-record whose `id`-or-`station_id` is truthy
(`station.get('id') or station.get('station_id')`, line 179). -/
def entryId : JVal → Option JVal
  | .obj fields =>
    match lookupKV fields.toList "station" with
    | some (.obj sfields) =>
      let sid := pyOr (pyGetD sfields.toList "id") (pyGetD sfields.toList "station_id")
      if truthy sid then some sid else none
    | _ => none
  | _ => none

/-- `all_stations_dict[station_id]['chargepoints'].append(cp)` (line 189):
`KeyError`/`AttributeError` are impossible on records this loop seeded. -/
def appendCp (st : PyDict) (cp : JVal) : Except String PyDict :=
  match lookupKV st "chargepoints" with
  | some (.arr xs) => .ok (setKey st "chargepoints" (.arr (xs.snoc cp)))
  | some _ => .error "AttributeError: append"
  | none => .error "KeyError: chargepoints"

/-- One iteration of the aggregation loop (lines 176-189) on one element
`cp` of the `chargepoints` payload list.  Entries without a `station` key
are skipped; a station sub-record without a truthy identity is skipped
(`continue`); a first-seen identity seeds a copy of the station sub-record
with an empty charge-point list (lines 184-187); the entry is then appended
to the stored record's list.  Non-dict elements follow Python semantics for
`'station' in cp` / `cp['station']` and may raise. -/
def processEntry (d : AggDict) (cp : JVal) : Except String AggDict :=
  match cp with
  | .obj fields =>
    match lookupKV fields.toList "station" with
    | none => .ok d
    | some station =>
      match station with
      | .obj sfields =>
        let skvs := sfields.toList
        let sid := pyOr (pyGetD skvs "id") (pyGetD skvs "station_id")
        if truthy sid then
          let d' := match aggFind d sid with
                    | some _ => d
                    | none => d ++ [(sid, setKey skvs "chargepoints" (.arr .nil))]
          match aggFind d' sid with
          | some st =>
            match appendCp st cp with
            | .ok st' => .ok (aggReplace d' sid st')
            | .error e => .error e
          | none => .error "KeyError: station_id"
        else .ok d
      | _ => .error "AttributeError: get"
  | .arr a =>
    if a.toList.contains (.str "station") then .error "TypeError: list indices must be integers"
    else .ok d
  | .str s =>
    if substrB "station" s then .error "TypeError: string indices must be integers"
    else .ok d
  | _ => .error "TypeError: argument of type is not iterable"

/-- The aggregation loop over one payload's `chargepoints` list.  On an
exception the dict mutations of the earlier iterations persist (the dict is
shared across responses); the exception is reported alongside. -/
def runEntries (d : AggDict) : List JVal → AggDict × Option String
  | [] => (d, none)
  | cp :: rest =>
    match processEntry d cp with
    | .ok d' => runEntries d' rest
    | .error e => (d, some e)

/-- Extraction of the `props.chargepoints` list from a parsed payload
(lines 172-176): the payload is ignored unless it is a dict with a `props`
key whose value admits `'chargepoints' in _`; the subscripts and the
iteration follow Python semantics and may raise. -/
def payloadEntries (j : JVal) : Except String (Option (List JVal)) :=
  match j with
  | .obj fs =>
    if hasKeyL fs.toList "props" then
      let props := pyGetD fs.toList "props"
      match pyIn "chargepoints" props with
      | .error e => .error e
      | .ok false => .ok none
      | .ok true =>
        match pySubscript props "chargepoints" with
        | .error e => .error e
        | .ok cpsv =>
          match iterElems cpsv with
          | .error e => .error e
          | .ok cps => .ok (some cps)
    else .ok none
  | _ => .ok none

/-- One intercepted network exchange, as seen by the aggregation loop.
The URL/content-type filter (lines 149-151) and the decompress+`json.loads`
stage (lines 154-170) are outside the repository's own logic (selenium-wire
body bytes, gzip/brotli): a response is abstracted as filtered-out,
as a decode/parse exception, or as a parsed JSON payload. -/
inductive RespOutcome where
  | irrelevant
  | parseError (msg : String)
  | payload (j : JVal)

/-- The warning logged by the `except` clause (lines 191-194). -/
def parseWarn (e : String) : String := "Error parsing /evcs-locations JSON: " ++ e

/-- State threaded through `extract_station_data`: the station dict and
`self.error_log`. -/
structure AggState where
  stations : AggDict
  errLog : List String
deriving DecidableEq

/-- Effect of one response on the station dict, with the warnings it logs:
a parse exception, or an exception raised inside the `try` block, is caught
and logged (lines 191-194) and leaves the dict as it was at that point. -/
def respStep (d : AggDict) : RespOutcome → AggDict × List String
  | .irrelevant => (d, [])
  | .parseError msg => (d, [parseWarn msg])
  | .payload j =>
    match payloadEntries j with
    | .error e => (d, [parseWarn e])
    | .ok none => (d, [])
    | .ok (some cps) =>
      match runEntries d cps with
      | (d', none) => (d', [])
      | (d', some e) => (d', [parseWarn e])

/-- The response loop of `extract_station_data` (lines 148-194). -/
def processResponses (st : AggState) : List RespOutcome → AggState
  | [] => st
  | r :: rs =>
    let (d', log) := respStep st.stations r
    processResponses ⟨d', st.errLog ++ log⟩ rs

/-- `extract_station_data` (lines 142-204): process every intercepted
response, then fail with `"No station data found!"` (also appended to the
error log) when the dict stayed empty, otherwise return the dict's values
in insertion order (`list(all_stations_dict.values())`, line 196). -/
def extract_station_data (rs : List RespOutcome) : List String × Except String (List PyDict) :=
  let st := processResponses ⟨[], []⟩ rs
  if st.stations.isEmpty then
    (st.errLog ++ ["No station data found!"], .error "No station data found!")
  else
    (st.errLog, .ok (st.stations.map (fun p => p.2)))

/-! ### Charge-point extraction (`extract_chargepoints`, lines 219-233) -/

/-- The first-element shape test of line 225: a dict bearing a `mode` or an
`id_or_serial_number` key. -/
def isDirectCp : JVal → Bool
  | .obj kvs => hasKeyL kvs.toList "mode" || hasKeyL kvs.toList "id_or_serial_number"
  | _ => false

/-- The nested lists collected on the wrapped shape (lines 229-231): for a
dict element with a `chargepoints` key holding a list, its elements;
nothing otherwise. -/
def nestedCps : JVal → List JVal
  | .obj fs =>
    match lookupKV fs.toList "chargepoints" with
    | some (.arr ys) => ys.toList
    | _ => []
  | _ => []

/-- `extract_chargepoints` (lines 219-233): empty when `chargepoints` is
missing, falsy or not a list; the whole list when its first element is a
dict with a `mode` or `id_or_serial_number` key; otherwise the
concatenation of the nested `chargepoints` lists found in dict elements. -/
def extract_chargepoints (station : PyDict) : List JVal :=
  match pyGetD station "chargepoints" with
  | .arr a =>
    match a.toList with
    | [] => []
    | first :: rest =>
      if isDirectCp first then first :: rest
      else (first :: rest).foldl (fun acc item => acc ++ nestedCps item) []
  | _ => []

/-! ### Association-list and aggregation-dict lemmas -/

theorem lookupKV_setKey_self : (d : PyDict) → (k : String) → (v : JVal) →
    lookupKV (setKey d k v) k = some v
  | [], k, v => by simp [setKey, lookupKV]
  | (k', v') :: rest, k, v => by
    by_cases h : k' = k <;> simp [setKey, lookupKV, h, lookupKV_setKey_self rest k v]

theorem lookupKV_setKey_ne : (d : PyDict) → {k k' : String} → (v : JVal) → k' ≠ k →
    lookupKV (setKey d k v) k' = lookupKV d k'
  | [], k, k', v, h => by simp [setKey, lookupKV, Ne.symm h]
  | (k₀, v₀) :: rest, k, k', v, h => by
    by_cases h₀ : k₀ = k <;>
      by_cases h₁ : k₀ = k' <;>
        simp_all [setKey, lookupKV, lookupKV_setKey_ne rest v h]

theorem setKey_of_lookup : (d : PyDict) → {k : String} → {v : JVal} →
    lookupKV d k = some v → setKey d k v = d
  | [], k, v, h => by simp [lookupKV] at h
  | (k₀, v₀) :: rest, k, v, h => by
    by_cases h₀ : k₀ = k
    · subst h₀
      simp [lookupKV] at h
      simp [setKey, h]
    · simp only [lookupKV, if_neg h₀] at h
      simp [setKey, h₀, setKey_of_lookup rest h]

theorem lookupKV_eq_none_iff {d : PyDict} {k : String} :
    lookupKV d k = none ↔ ∀ p ∈ d, p.1 ≠ k := by
  induction d with
  | nil => simp [lookupKV]
  | cons p rest ih =>
    obtain ⟨k₀, v₀⟩ := p
    by_cases h : k₀ = k <;> simp [lookupKV, h, ih]

theorem lookupKV_delKey (d : PyDict) (k k' : String) :
    lookupKV (delKey d k) k' = if k' = k then none else lookupKV d k' := by
  induction d with
  | nil => simp [delKey, lookupKV]
  | cons p rest ih =>
    obtain ⟨k₀, v₀⟩ := p
    by_cases h : k₀ = k
    · subst h
      have hd : delKey ((k₀, v₀) :: rest) k₀ = delKey rest k₀ := by simp [delKey]
      rw [hd, ih]
      by_cases h' : k' = k₀
      · simp [h']
      · simp only [lookupKV, h', if_false]
        rw [if_neg (fun hc : k₀ = k' => h' hc.symm)]
    · have hd : delKey ((k₀, v₀) :: rest) k = (k₀, v₀) :: delKey rest k := by
        simp [delKey, h]
      rw [hd]
      by_cases h' : k' = k₀
      · subst h'
        simp [lookupKV, h]
      · by_cases hk : k' = k
        · subst hk
          simp only [lookupKV, if_neg h]
          simpa using ih
        · simp only [lookupKV, if_neg hk]
          rw [if_neg (fun hc : k₀ = k' => h' hc.symm),
            if_neg (fun hc : k₀ = k' => h' hc.symm), ih, if_neg hk]

theorem delKey_of_lookup_none {d : PyDict} {k : String} (h : lookupKV d k = none) :
    delKey d k = d := by
  rw [lookupKV_eq_none_iff] at h
  simpa [delKey, List.filter_eq_self] using h

/-- Keys of the aggregation dict, in insertion order. -/
def keysOf (d : AggDict) : List JVal := d.map (fun p => p.1)

theorem aggFind_eq_none_iff {d : AggDict} {k : JVal} :
    aggFind d k = none ↔ k ∉ keysOf d := by
  induction d with
  | nil => simp [aggFind, keysOf]
  | cons p rest ih =>
    obtain ⟨k₀, st₀⟩ := p
    by_cases h : k₀ = k <;> simp [aggFind, keysOf, h, ih] <;> simp [keysOf] at ih <;>
      simp [ih, Ne.symm h]

theorem aggFind_mem : {d : AggDict} → {k : JVal} → {st : PyDict} →
    aggFind d k = some st → (k, st) ∈ d
  | [], k, st, h => by simp [aggFind] at h
  | (k₀, st₀) :: rest, k, st, h => by
    by_cases h₀ : k₀ = k
    · subst h₀
      simp [aggFind] at h
      simp [h]
    · simp only [aggFind, if_neg h₀] at h
      exact List.mem_cons_of_mem _ (aggFind_mem h)

theorem aggFind_append_of_none : (d₁ : AggDict) → {d₂ : AggDict} → {k : JVal} →
    aggFind d₁ k = none → aggFind (d₁ ++ d₂) k = aggFind d₂ k
  | [], d₂, k, _ => rfl
  | (k₀, st₀) :: rest, d₂, k, h => by
    by_cases h₀ : k₀ = k
    · simp [aggFind, h₀] at h
    · simp only [aggFind, if_neg h₀] at h
      simpa [aggFind, h₀] using aggFind_append_of_none rest h

theorem aggFind_append_of_some : (d₁ : AggDict) → {d₂ : AggDict} → {k : JVal} →
    {st : PyDict} → aggFind d₁ k = some st → aggFind (d₁ ++ d₂) k = some st
  | [], _, k, st, h => by simp [aggFind] at h
  | (k₀, st₀) :: rest, d₂, k, st, h => by
    by_cases h₀ : k₀ = k
    · subst h₀
      simp [aggFind] at h
      simp [aggFind, h]
    · simp only [aggFind, if_neg h₀] at h
      simpa [aggFind, h₀] using aggFind_append_of_some rest h

theorem keysOf_aggReplace : (d : AggDict) → (k : JVal) → (st : PyDict) →
    keysOf (aggReplace d k st) = keysOf d
  | [], _, _ => rfl
  | (k₀, st₀) :: rest, k, st => by
    have hr := keysOf_aggReplace rest k st
    simp only [keysOf] at hr ⊢
    by_cases h₀ : k₀ = k <;> simp [aggReplace, h₀, hr]

theorem aggFind_aggReplace_self : (d : AggDict) → {k : JVal} → {st₀ : PyDict} →
    (st : PyDict) → aggFind d k = some st₀ → aggFind (aggReplace d k st) k = some st
  | [], k, st₀, st, h => by simp [aggFind] at h
  | (k₁, st₁) :: rest, k, st₀, st, h => by
    by_cases h₁ : k₁ = k
    · subst h₁
      simp [aggReplace, aggFind]
    · simp only [aggFind, if_neg h₁] at h
      simpa [aggReplace, aggFind, h₁] using aggFind_aggReplace_self rest st h

theorem aggFind_aggReplace_ne : (d : AggDict) → {k k' : JVal} → (st : PyDict) →
    k' ≠ k → aggFind (aggReplace d k st) k' = aggFind d k'
  | [], _, _, _, _ => rfl
  | (k₁, st₁) :: rest, k, k', st, h => by
    by_cases h₁ : k₁ = k
    · subst h₁
      simp [aggReplace, aggFind, Ne.symm h]
    · simp only [aggReplace, if_neg h₁]
      by_cases h₂ : k₁ = k'
      · simp [aggFind, h₂]
      · simp [aggFind, h₂, aggFind_aggReplace_ne rest st h]

theorem mem_aggReplace : {d : AggDict} → {k : JVal} → {st : PyDict} → {p : JVal × PyDict} →
    p ∈ aggReplace d k st → p = (k, st) ∨ p ∈ d
  | [], k, st, p, h => by simp [aggReplace] at h
  | (k₁, st₁) :: rest, k, st, p, h => by
    by_cases h₁ : k₁ = k
    · subst h₁
      rcases List.mem_cons.1 (by simpa [aggReplace] using h) with h₂ | h₂
      · exact Or.inl h₂
      · exact Or.inr (List.mem_cons_of_mem _ h₂)
    · rcases List.mem_cons.1 (by simpa [aggReplace, h₁] using h) with h₂ | h₂
      · exact Or.inr (by simp [h₂])
      · rcases mem_aggReplace h₂ with h₃ | h₃
        · exact Or.inl h₃
        · exact Or.inr (List.mem_cons_of_mem _ h₃)

/-! ### First-seen key order and the aggregation invariant -/

/-- Keys in first-appearance order: the effect of one dict insertion on the
key sequence. -/
def insertNew (acc : List JVal) (a : JVal) : List JVal :=
  if a ∈ acc then acc else acc ++ [a]

/-- First-appearance order of a sequence of identities. -/
def firstSeen (l : List JVal) : List JVal := l.foldl insertNew []

theorem mem_insertNew {x a : JVal} {acc : List JVal} :
    x ∈ insertNew acc a ↔ x ∈ acc ∨ x = a := by
  by_cases h : a ∈ acc
  · simp only [insertNew, if_pos h]
    exact ⟨Or.inl, fun hx => hx.elim id (fun he => he ▸ h)⟩
  · simp [insertNew, h]

theorem mem_foldl_insertNew : (l : List JVal) → (acc : List JVal) → (x : JVal) →
    (x ∈ l.foldl insertNew acc ↔ x ∈ acc ∨ x ∈ l)
  | [], acc, x => by simp
  | a :: as, acc, x => by
    simp only [List.foldl_cons]
    rw [mem_foldl_insertNew as (insertNew acc a) x, mem_insertNew]
    simp only [List.mem_cons]
    tauto

theorem nodup_insertNew {a : JVal} {acc : List JVal} (h : acc.Nodup) :
    (insertNew acc a).Nodup := by
  by_cases ha : a ∈ acc <;> simp [insertNew, ha, h, List.nodup_append]

theorem nodup_foldl_insertNew : (l : List JVal) → {acc : List JVal} → acc.Nodup →
    (l.foldl insertNew acc).Nodup
  | [], _, h => h
  | a :: as, acc, h => by
    simp only [List.foldl_cons]
    exact nodup_foldl_insertNew as (nodup_insertNew h)

/-- The charge-point list stored in a station record. -/
def cpList (st : PyDict) : List JVal :=
  match lookupKV st "chargepoints" with
  | some (.arr xs) => xs.toList
  | _ => []

/-- The charge-point list stored under an identity (empty when absent). -/
def cpListAt (d : AggDict) (k : JVal) : List JVal :=
  match aggFind d k with
  | some st => cpList st
  | none => []

/-- Invariant of `all_stations_dict`: every stored record carries a
`chargepoints` key holding a list (the loop seeds it before appending). -/
def AggInv (d : AggDict) : Prop :=
  ∀ p ∈ d, ∃ xs : JArr, lookupKV p.2 "chargepoints" = some (.arr xs)

theorem mem_keysOf_of_aggFind {d : AggDict} {k : JVal} {st : PyDict}
    (h : aggFind d k = some st) : k ∈ keysOf d := by
  by_contra hc
  rw [← aggFind_eq_none_iff] at hc
  rw [hc] at h
  exact Option.noConfusion h

/-- One well-formed entry through the aggregation loop: the result keys are
the old keys with the entry's identity inserted at first appearance, the
entry is appended to its identity's charge-point list, and every other
identity's list is untouched. -/
theorem processEntry_wf {d : AggDict} {cp sid : JVal} (h : entryId cp = some sid)
    (hInv : AggInv d) :
    ∃ d', processEntry d cp = .ok d' ∧ AggInv d' ∧
      keysOf d' = insertNew (keysOf d) sid ∧
      cpListAt d' sid = cpListAt d sid ++ [cp] ∧
      ∀ k, k ≠ sid → cpListAt d' k = cpListAt d k := by
  cases cp with
  | null => simp [entryId] at h
  | bool b => simp [entryId] at h
  | num n => simp [entryId] at h
  | str s => simp [entryId] at h
  | arr a => simp [entryId] at h
  | obj fields =>
    simp only [entryId] at h
    cases hst : lookupKV fields.toList "station" with
    | none => rw [hst] at h; exact absurd h (by simp)
    | some station =>
      rw [hst] at h
      cases station with
      | null => simp at h
      | bool b => simp at h
      | num n => simp at h
      | str s => simp at h
      | arr a => simp at h
      | obj sfields =>
        simp only at h
        by_cases htr :
            truthy (pyOr (pyGetD sfields.toList "id") (pyGetD sfields.toList "station_id")) = true
        · rw [if_pos htr] at h
          injection h with hsid
          subst hsid
          set sid := pyOr (pyGetD sfields.toList "id") (pyGetD sfields.toList "station_id")
            with hsid
          cases hfind : aggFind d sid with
          | some st₀ =>
            obtain ⟨xs, hxs⟩ := hInv (sid, st₀) (aggFind_mem hfind)
            refine ⟨aggReplace d sid
              (setKey st₀ "chargepoints" (.arr (xs.snoc (.obj fields)))), ?_, ?_, ?_, ?_, ?_⟩
            · simp only [processEntry, hst, ← hsid, htr, if_true, hfind, appendCp, hxs]
            · intro p hp
              rcases mem_aggReplace hp with hp' | hp'
              · exact ⟨xs.snoc (.obj fields), by rw [hp']; exact lookupKV_setKey_self _ _ _⟩
              · exact hInv p hp'
            · rw [keysOf_aggReplace]
              have hmem := mem_keysOf_of_aggFind hfind
              simp [insertNew, hmem]
            · simp only [cpListAt, aggFind_aggReplace_self d _ hfind, hfind, cpList,
                lookupKV_setKey_self]
              simp only [cpList] at hxs ⊢
              rw [hxs, JArr.toList_snoc]
            · intro k hk
              simp only [cpListAt, aggFind_aggReplace_ne d _ hk]
          | none =>
            have hkeys : sid ∉ keysOf d := aggFind_eq_none_iff.1 hfind
            have hfind₁ :
                aggFind (d ++ [(sid, setKey sfields.toList "chargepoints" (.arr .nil))]) sid
                = some (setKey sfields.toList "chargepoints" (.arr .nil)) := by
              rw [aggFind_append_of_none d hfind]
              simp [aggFind]
            refine ⟨aggReplace (d ++ [(sid, setKey sfields.toList "chargepoints" (.arr .nil))])
              sid (setKey (setKey sfields.toList "chargepoints" (.arr .nil)) "chargepoints"
                (.arr (JArr.nil.snoc (.obj fields)))), ?_, ?_, ?_, ?_, ?_⟩
            · simp only [processEntry, hst, ← hsid, htr, if_true, hfind, hfind₁, appendCp,
                lookupKV_setKey_self]
            · intro p hp
              rcases mem_aggReplace hp with hp' | hp'
              · exact ⟨JArr.nil.snoc (.obj fields), by rw [hp']; exact lookupKV_setKey_self _ _ _⟩
              · rcases List.mem_append.1 hp' with hp'' | hp''
                · exact hInv p hp''
                · rcases List.mem_singleton.1 hp'' with rfl
                  exact ⟨.nil, lookupKV_setKey_self _ _ _⟩
            · rw [keysOf_aggReplace]
              have happ : keysOf (d ++ [(sid, setKey sfields.toList "chargepoints" (.arr .nil))])
                  = keysOf d ++ [sid] := by simp [keysOf]
              rw [happ]
              simp [insertNew, hkeys]
            · simp only [cpListAt, aggFind_aggReplace_self _ _ hfind₁, hfind, cpList,
                lookupKV_setKey_self, JArr.toList_snoc, JArr.toList]
              simp
            · intro k hk
              simp only [cpListAt, aggFind_aggReplace_ne _ _ hk]
              cases hdk : aggFind d k with
              | some stk => rw [aggFind_append_of_some d hdk]
              | none =>
                rw [aggFind_append_of_none d hdk]
                simp [aggFind, Ne.symm hk]
        · rw [if_neg htr] at h
          exact absurd h (by simp)

/-- The aggregation loop over a sequence of well-formed entries: no
exception, the invariant is preserved, the dict keys are the old keys with
each identity inserted at first appearance, and each identity's stored
charge-point list grows by exactly its referencing entries, in order. -/
theorem runEntries_wf : (cps : List JVal) → (d : AggDict) →
    (∀ cp ∈ cps, (entryId cp).isSome) → AggInv d →
    (runEntries d cps).2 = none ∧ AggInv (runEntries d cps).1 ∧
    keysOf (runEntries d cps).1
      = cps.foldl (fun acc cp => insertNew acc ((entryId cp).getD .null)) (keysOf d) ∧
    ∀ k, cpListAt (runEntries d cps).1 k
      = cpListAt d k ++ cps.filter (fun cp => decide (entryId cp = some k))
  | [], d, _, hInv => by simp [runEntries, hInv]
  | cp :: rest, d, hw, hInv => by
    obtain ⟨sid, hsid⟩ := Option.isSome_iff_exists.1 (hw cp (List.mem_cons_self cp rest))
    obtain ⟨d', hpe, hInv', hkeys, hself, hother⟩ := processEntry_wf hsid hInv
    have ih := runEntries_wf rest d' (fun c hc => hw c (List.mem_cons_of_mem _ hc)) hInv'
    simp only [runEntries, hpe]
    refine ⟨ih.1, ih.2.1, ?_, ?_⟩
    · rw [ih.2.2.1, hkeys]
      simp [List.foldl_cons, hsid]
    · intro k
      rw [ih.2.2.2 k]
      by_cases hk : k = sid
      · subst hk
        rw [hself]
        simp [List.filter_cons, hsid]
      · rw [hother k hk]
        have hne : ¬(entryId cp = some k) := by
          rw [hsid]
          exact fun he => hk (Option.some.inj he).symm
        simp [List.filter_cons, hne]

/-! ### Summary enrichment and dual-shape export (`process_and_export_data`,
lines 235-332) -/

/-- `cp.get(k)` inside the summary/flatten loops: dict lookup with `None`
default; `AttributeError` on a non-dict element. -/
def cpGet (cp : JVal) (k : String) : Except String JVal :=
  match cp with
  | .obj fs => .ok (pyGetD fs.toList k)
  | _ => .error "AttributeError: get"

/-- One charge-point through the summary loop (lines 246-265), updating the
three accumulated sets (protocols, modes, equipments).  The sets are
modelled as duplicate-free lists; only their sorted form is observable. -/
def summarizeCp (acc : List String × List String × List String) (cp : JVal) :
    Except String (List String × List String × List String) :=
  match cpGet cp "charging_protocol" with
  | .error e => .error e
  | .ok protocol =>
    let ps :=
      match protocol with
      | .arr l => l.toList.foldl (fun a p => setInsert a (pyStr p)) acc.1
      | v => if truthy v then setInsert acc.1 (pyStr v) else acc.1
    match cpGet cp "id_or_serial_number" with
    | .error e => .error e
    | .ok e1 =>
      match cpGet cp "equipment" with
      | .error e => .error e
      | .ok e2 =>
        match cpGet cp "name" with
        | .error e => .error e
        | .ok e3 =>
          let equipment := pyOr e1 (pyOr e2 e3)
          let eqs := if truthy equipment then setInsert acc.2.2 (pyStr equipment) else acc.2.2
          match cpGet cp "mode" with
          | .error e => .error e
          | .ok m1 =>
            match cpGet cp "evcs_mode" with
            | .error e => .error e
            | .ok m2 =>
              let mode := pyOr m1 m2
              let ms := if truthy mode then setInsert acc.2.1 (pyStr mode) else acc.2.1
              .ok (ps, ms, eqs)

/-- The summary loop over the extracted charge-points. -/
def summarize : (List String × List String × List String) → List JVal →
    Except String (List String × List String × List String)
  | acc, [] => .ok acc
  | acc, cp :: rest =>
    match summarizeCp acc cp with
    | .ok acc' => summarize acc' rest
    | .error e => .error e

/-- `', '.join(sorted(s))` for an accumulated set. -/
def joinSet (l : List String) : String := ", ".intercalate (sortStrs l)

/-- The enrichment of one station (lines 240-273): derive the three summary
strings from the extracted charge-points, write them into the record, drop
any pre-existing `chargepoints_summary`. -/
def enrichStation (st : PyDict) : Except String PyDict :=
  match summarize ([], [], []) (extract_chargepoints st) with
  | .error e => .error e
  | .ok (ps, ms, eqs) =>
    .ok (delKey
      (setKey
        (setKey
          (setKey st "Charging Protocols" (.str (joinSet ps)))
          "EVCS Modes" (.str (joinSet ms)))
        "Charging Equipments" (.str (joinSet eqs)))
      "chargepoints_summary")

/-- One flattened row for one charge-point (lines 297-304): the enriched
station record extended with the three charge-point columns (the deep copy
is identity in a functional model). -/
def flatCpRow (base : PyDict) (cp : JVal) : Except String PyDict :=
  match cpGet cp "id_or_serial_number" with
  | .error e => .error e
  | .ok e1 =>
    match cpGet cp "equipment" with
    | .error e => .error e
    | .ok e2 =>
      match cpGet cp "name" with
      | .error e => .error e
      | .ok e3 =>
        match cpGet cp "charging_protocol" with
        | .error e => .error e
        | .ok p =>
          match cpGet cp "mode" with
          | .error e => .error e
          | .ok m1 =>
            match cpGet cp "evcs_mode" with
            | .error e => .error e
            | .ok m2 =>
              .ok (setKey
                (setKey
                  (setKey base "Charging Equipment" (pyOr e1 (pyOr e2 e3)))
                  "Charging Protocol" p)
                "EVCS mode" (pyOr m1 m2))

/-- Per-charge-point row accumulation, in list order. -/
def flatCpRows (base : PyDict) : List JVal → Except String (List PyDict)
  | [] => .ok []
  | cp :: rest =>
    match flatCpRow base cp with
    | .error e => .error e
    | .ok row =>
      match flatCpRows base rest with
      | .error e => .error e
      | .ok rows => .ok (row :: rows)

/-- The flattened rows of one station (lines 292-310): one row per
charge-point, or a single placeholder row with the three charge-point
columns set to the empty string when the extracted list is empty. -/
def flatStationRows (station : PyDict) : Except String (List PyDict) :=
  match extract_chargepoints station with
  | [] =>
    .ok [setKey
      (setKey
        (setKey station "Charging Equipment" (.str ""))
        "Charging Protocol" (.str ""))
      "EVCS mode" (.str "")]
  | cps => flatCpRows station cps

/-- The full `flat_rows` accumulation over all stations. -/
def flatRowsAll : List PyDict → Except String (List PyDict)
  | [] => .ok []
  | st :: rest =>
    match flatStationRows st with
    | .error e => .error e
    | .ok rows =>
      match flatRowsAll rest with
      | .error e => .error e
      | .ok more => .ok (rows ++ more)

/-- The enrichment loop over all stations (the in-place mutation of
`stations_data` is modelled by returning the updated list). -/
def enrichAll : List PyDict → Except String (List PyDict)
  | [] => .ok []
  | st :: rest =>
    match enrichStation st with
    | .error e => .error e
    | .ok st' =>
      match enrichAll rest with
      | .error e => .error e
      | .ok more => .ok (st' :: more)

/-- `pd.DataFrame(flat_rows)` columns: the union of the row keys in
first-appearance order (pandas preserves dict key discovery order for a
list of dicts). -/
def dfColumns (rows : List PyDict) : List String :=
  rows.foldl (fun acc r =>
    r.foldl (fun acc2 kv => if kv.1 ∈ acc2 then acc2 else acc2 ++ [kv.1]) acc) []

/-- The fixed priority column list of lines 315-318. -/
def priorityCols : List String :=
  ["station_id", "company_id", "evcs_establishment_name",
   "Charging Protocol", "Charging Equipment", "EVCS mode", "region"]

/-- `flat_df[priority_cols + other_cols]` (lines 319-320): pandas raises a
`KeyError` when any requested label is missing from the frame's columns;
the priority columns are requested unconditionally, `other_cols` are the
remaining frame columns in order. -/
def selectColumns (cols : List String) : Except String (List String) :=
  let other := cols.filter (fun c => ¬priorityCols.contains c)
  if priorityCols.all (fun c => cols.contains c) then .ok (priorityCols ++ other)
  else .error "KeyError: priority columns not in index"

/-- Result of the computational part of `process_and_export_data`. -/
structure ExportOut where
  enriched : List PyDict
  rows : List PyDict
  cols : List String
  stationsCount : Nat
  rowsCount : Nat
deriving DecidableEq

/-- `process_and_export_data` (lines 235-332), file writes aside: enrich
every station in place, build the flattened rows, reorder the flattened
frame's columns, and return the counts `(len(stations_data), len(flat_rows))`.
The aggregated projection (`pd.json_normalize` minus the `chargepoints`
column) only feeds the `.xlsx`/`.csv` writers and is not modelled. -/
def process_and_export_data (stations : List PyDict) : Except String ExportOut :=
  match enrichAll stations with
  | .error e => .error e
  | .ok enriched =>
    match flatRowsAll enriched with
    | .error e => .error e
    | .ok rows =>
      match selectColumns (dfColumns rows) with
      | .error e => .error e
      | .ok cols => .ok ⟨enriched, rows, cols, enriched.length, rows.length⟩

/-! ### Notification and orchestration (`send_email_notification`, `run`,
lines 334-476) -/

/-- The abstract environment of one run: the outcomes of the external
stages (driver setup; navigation/CSRF/scrolling; the intercepted
responses; the JSON file write; the Excel/CSV writes; email configuration
and the dispatch outcome). -/
structure ScrapeEnv where
  setupOutcome : Except String Unit
  preOutcome : Except String Unit
  responses : List RespOutcome
  saveOutcome : Except String Unit
  writeOutcome : Except String Unit
  emailConfigured : Bool
  notifyDispatch : Except String Unit

/-- Observable result of a run. -/
structure RunResult where
  exitCode : Nat
  errLog : List String
  notifyCalls : List Bool
deriving DecidableEq

/-- `send_email_notification` (lines 334-425): a no-op (with a printed
warning only) when no API key is configured; otherwise any dispatch
exception is caught and appended to the error log (the `ApiException` and
generic branches both only log), and nothing ever propagates. -/
def send_email_notification (configured : Bool) (dispatch : Except String Unit)
    (log : List String) : List String :=
  if configured then
    match dispatch with
    | .ok _ => log
    | .error e => log ++ ["Email notification error: " ++ e]
  else log

/-- The `try` body of `run` (lines 439-461) up to the success print-outs:
the error log accumulated so far, and either the exception that aborted the
sequence or the two counts.  `setup_driver` appends its own message before
re-raising (lines 93-97); the navigation/CSRF/scroll phase is abstracted as
one outcome. -/
def attemptPipeline (env : ScrapeEnv) : List String × Except String (Nat × Nat) :=
  match env.setupOutcome with
  | .error e => (["Failed to initialize Edge WebDriver: " ++ e], .error e)
  | .ok _ =>
    match env.preOutcome with
    | .error e => ([], .error e)
    | .ok _ =>
      match extract_station_data env.responses with
      | (log, .error e) => (log, .error e)
      | (log, .ok stations) =>
        match env.saveOutcome with
        | .error e => (log, .error e)
        | .ok _ =>
          match process_and_export_data stations with
          | .error e => (log, .error e)
          | .ok out =>
            match env.writeOutcome with
            | .error e => (log, .error e)
            | .ok _ => (log, .ok (out.stationsCount, out.rowsCount))

/-- `run` (lines 433-476): on success notify with `success=True` and return
0; on any exception notify with `success=False` and return 1.  The
notification call is recorded in `notifyCalls`; `cleanup` always runs and
has no observable state here. -/
def runModel (env : ScrapeEnv) : RunResult :=
  match attemptPipeline env with
  | (log, .ok _) =>
    ⟨0, send_email_notification env.emailConfigured env.notifyDispatch log, [true]⟩
  | (log, .error _) =>
    ⟨1, send_email_notification env.emailConfigured env.notifyDispatch log, [false]⟩

/-! ### Claim theorems -/

/-- Inversion of a well-formed entry: it is a dict with a dict `station`
sub-record whose `id`-or-`station_id` is truthy. -/
theorem entryId_some_elim {cp sid : JVal} (h : entryId cp = some sid) :
    ∃ fields sfields, cp = .obj fields ∧
      lookupKV fields.toList "station" = some (.obj sfields) ∧
      truthy (pyOr (pyGetD sfields.toList "id") (pyGetD sfields.toList "station_id")) = true ∧
      sid = pyOr (pyGetD sfields.toList "id") (pyGetD sfields.toList "station_id") := by
  cases cp with
  | null => simp [entryId] at h
  | bool b => simp [entryId] at h
  | num n => simp [entryId] at h
  | str s => simp [entryId] at h
  | arr a => simp [entryId] at h
  | obj fields =>
    simp only [entryId] at h
    cases hst : lookupKV fields.toList "station" with
    | none => rw [hst] at h; exact absurd h (by simp)
    | some station =>
      rw [hst] at h
      cases station with
      | null => simp at h
      | bool b => simp at h
      | num n => simp at h
      | str s => simp at h
      | arr a => simp at h
      | obj sfields =>
        simp only at h
        by_cases htr :
            truthy (pyOr (pyGetD sfields.toList "id") (pyGetD sfields.toList "station_id")) = true
        · rw [if_pos htr] at h
          injection h with hsid
          exact ⟨fields, sfields, rfl, hst, htr, hsid.symm⟩
        · rw [if_neg htr] at h
          exact absurd h (by simp)

/-- C1: over any sequence of charge-point entries whose station sub-record
carries a truthy identity, the aggregation loop raises nothing, produces
its station keys in first-seen identity order without duplicates (exactly
one record per distinct identity), and the record stored under each
identity carries exactly the entries referencing that identity, in input
order. -/
theorem C1_aggregator_one_record_per_identity (es : List JVal)
    (hw : ∀ e ∈ es, (entryId e).isSome) :
    (runEntries [] es).2 = none ∧
    keysOf (runEntries [] es).1 = firstSeen (es.map (fun e => (entryId e).getD .null)) ∧
    (keysOf (runEntries [] es).1).Nodup ∧
    (∀ k, (∃ e ∈ es, entryId e = some k) → (keysOf (runEntries [] es).1).count k = 1) ∧
    (∀ k st, aggFind (runEntries [] es).1 k = some st →
      cpList st = es.filter (fun e => decide (entryId e = some k))) := by
  have hInv : AggInv [] := fun p hp => absurd hp (List.not_mem_nil p)
  obtain ⟨h1, _, h3, h4⟩ := runEntries_wf es [] hw hInv
  have hkeys : keysOf (runEntries [] es).1
      = firstSeen (es.map (fun e => (entryId e).getD .null)) := by
    rw [h3]
    simp [firstSeen, List.foldl_map, keysOf]
  have hnd : (keysOf (runEntries [] es).1).Nodup := by
    rw [hkeys]
    simp only [firstSeen]
    exact nodup_foldl_insertNew _ List.nodup_nil
  refine ⟨h1, hkeys, hnd, ?_, ?_⟩
  · intro k hk
    obtain ⟨e, he, hid⟩ := hk
    refine List.count_eq_one_of_mem hnd ?_
    rw [hkeys]
    refine (mem_foldl_insertNew _ _ _).2 (Or.inr ?_)
    exact List.mem_map.2 ⟨e, he, by simp [hid]⟩
  · intro k st hfind
    have h4k := h4 k
    simp only [cpListAt, hfind] at h4k
    simpa using h4k

def eW1 : JVal := .mkObj [("station", .mkObj [("id", .str "S1")]), ("mode", .str "AC")]

def eW2 : JVal := .mkObj [("station", .mkObj [("id", .str "S2")]), ("mode", .str "DC")]

def eW3 : JVal :=
  .mkObj [("station", .mkObj [("id", .str "S1"), ("region", .str "NCR")]), ("mode", .str "DC")]

/-- Witness for C1 at a concrete three-entry sequence (identities S1, S2, S1). -/
theorem C1_witness :
    (runEntries [] [eW1, eW2, eW3]).2 = none ∧
    keysOf (runEntries [] [eW1, eW2, eW3]).1 = [.str "S1", .str "S2"] ∧
    (keysOf (runEntries [] [eW1, eW2, eW3]).1).count (.str "S1") = 1 ∧
    (aggFind (runEntries [] [eW1, eW2, eW3]).1 (.str "S1")).map cpList = some [eW1, eW3] := by
  have h := C1_aggregator_one_record_per_identity [eW1, eW2, eW3] (by decide)
  refine ⟨h.1, by decide, ?_, by decide⟩
  exact h.2.2.2.1 (.str "S1") ⟨eW1, by decide, by decide⟩

/-- C10: an entry whose identity is already stored only appends the entry
to that record's `chargepoints` list; every other field of the stored
record, and every other identity's record, is unchanged — the later entry's
own station sub-record is never consulted for station-level attributes. -/
theorem C10_existing_identity_append_only (d : AggDict) (sid : JVal) (st : PyDict)
    (cp : JVal) (xs : JArr) (hfind : aggFind d sid = some st)
    (hid : entryId cp = some sid)
    (harr : lookupKV st "chargepoints" = some (.arr xs)) :
    processEntry d cp
      = .ok (aggReplace d sid (setKey st "chargepoints" (.arr (xs.snoc cp)))) ∧
    cpList (setKey st "chargepoints" (.arr (xs.snoc cp))) = cpList st ++ [cp] ∧
    (∀ k, k ≠ "chargepoints" →
      lookupKV (setKey st "chargepoints" (.arr (xs.snoc cp))) k = lookupKV st k) ∧
    keysOf (aggReplace d sid (setKey st "chargepoints" (.arr (xs.snoc cp)))) = keysOf d ∧
    (∀ k, k ≠ sid →
      aggFind (aggReplace d sid (setKey st "chargepoints" (.arr (xs.snoc cp)))) k
        = aggFind d k) := by
  obtain ⟨fields, sfields, rfl, hst, htr, hsid⟩ := entryId_some_elim hid
  subst hsid
  refine ⟨?_, ?_, ?_, ?_, ?_⟩
  · simp only [processEntry, hst, htr, if_true, hfind, appendCp, harr]
  · simp only [cpList, lookupKV_setKey_self, harr, JArr.toList_snoc]
  · intro k hk
    exact lookupKV_setKey_ne st _ hk
  · exact keysOf_aggReplace d _ _
  · intro k hk
    exact aggFind_aggReplace_ne d _ hk

def stW10 : PyDict :=
  [("id", .str "S1"), ("name", .str "Old"), ("chargepoints", .arr .nil)]

def dW10 : AggDict := [(.str "S1", stW10)]

def cpW10 : JVal :=
  .mkObj [("station", .mkObj [("id", .str "S1"), ("name", .str "New")]), ("mode", .str "AC")]

/-- Witness for C10: the second entry's differing `name` does not touch the
stored record's `name`; only `chargepoints` grows. -/
theorem C10_witness :
    processEntry dW10 cpW10
      = .ok (aggReplace dW10 (.str "S1")
          (setKey stW10 "chargepoints" (.arr (JArr.nil.snoc cpW10)))) ∧
    cpList (setKey stW10 "chargepoints" (.arr (JArr.nil.snoc cpW10)))
      = cpList stW10 ++ [cpW10] ∧
    lookupKV (setKey stW10 "chargepoints" (.arr (JArr.nil.snoc cpW10))) "name"
      = some (.str "Old") := by
  have h := C10_existing_identity_append_only dW10 (.str "S1") stW10 cpW10 .nil
    (by decide) (by decide) (by decide)
  exact ⟨h.1, h.2.1, (h.2.2.1 "name" (by decide)).trans (by decide)⟩

/-- A fold that only appends empty lists is the identity. -/
theorem foldl_append_nested_nil : (l : List JVal) → (acc : List JVal) →
    (∀ item ∈ l, nestedCps item = []) →
    l.foldl (fun acc item => acc ++ nestedCps item) acc = acc
  | [], acc, _ => rfl
  | x :: xs, acc, h => by
    simp only [List.foldl_cons, h x (List.mem_cons_self x xs), List.append_nil]
    exact foldl_append_nested_nil xs acc (fun i hi => h i (List.mem_cons_of_mem _ hi))

/-- C9: `extract_chargepoints` decides the shape by the first element only:
missing/non-list/empty gives `[]`; a first element bearing `mode` or
`id_or_serial_number` returns the whole list unchanged; otherwise only
nested `chargepoints` lists are collected, so direct records lacking both
keys are dropped entirely. -/
theorem C9_extract_chargepoints_first_element_sniffing :
    (∀ st, lookupKV st "chargepoints" = none → extract_chargepoints st = []) ∧
    (∀ st v, lookupKV st "chargepoints" = some v → (∀ a : JArr, v ≠ .arr a) →
      extract_chargepoints st = []) ∧
    (∀ st a, lookupKV st "chargepoints" = some (.arr a) → a.toList = [] →
      extract_chargepoints st = []) ∧
    (∀ st a first rest, lookupKV st "chargepoints" = some (.arr a) →
      a.toList = first :: rest → isDirectCp first = true →
      extract_chargepoints st = first :: rest) ∧
    (∀ st a first rest, lookupKV st "chargepoints" = some (.arr a) →
      a.toList = first :: rest → isDirectCp first = false →
      extract_chargepoints st
        = (first :: rest).foldl (fun acc item => acc ++ nestedCps item) []) ∧
    (∀ st a first rest, lookupKV st "chargepoints" = some (.arr a) →
      a.toList = first :: rest → isDirectCp first = false →
      (∀ item ∈ first :: rest, nestedCps item = []) →
      extract_chargepoints st = []) := by
  refine ⟨?_, ?_, ?_, ?_, ?_, ?_⟩
  · intro st h
    simp [extract_chargepoints, pyGetD, h]
  · intro st v h hv
    cases v with
    | arr a => exact absurd rfl (hv a)
    | null => simp [extract_chargepoints, pyGetD, h]
    | bool b => simp [extract_chargepoints, pyGetD, h]
    | num n => simp [extract_chargepoints, pyGetD, h]
    | str s => simp [extract_chargepoints, pyGetD, h]
    | obj o => simp [extract_chargepoints, pyGetD, h]
  · intro st a h ha
    simp [extract_chargepoints, pyGetD, h, ha]
  · intro st a first rest h ha hdir
    simp [extract_chargepoints, pyGetD, h, ha, hdir]
  · intro st a first rest h ha hdir
    simp [extract_chargepoints, pyGetD, h, ha, hdir]
  · intro st a first rest h ha hdir hnil
    simp [extract_chargepoints, pyGetD, h, ha, hdir]
    rw [hnil first (List.mem_cons_self first rest)]
    exact foldl_append_nested_nil rest [] (fun i hi => hnil i (List.mem_cons_of_mem _ hi))

def stW9 : PyDict :=
  [("id", .str "S9"),
   ("chargepoints", .mkArr [.mkObj [("equipment", .str "EQ-1")],
     .mkObj [("name", .str "Unit 2")]])]

/-- Witness for C9: a list of direct records carrying only `equipment` or
`name` yields an empty extraction. -/
theorem C9_witness :
    extract_chargepoints stW9 = [] ∧
    isDirectCp (.mkObj [("equipment", .str "EQ-1")]) = false := by
  have h := C9_extract_chargepoints_first_element_sniffing
  refine ⟨?_, by decide⟩
  exact h.2.2.2.2.2 stW9 (JArr.ofList [.mkObj [("equipment", .str "EQ-1")],
    .mkObj [("name", .str "Unit 2")]]) (.mkObj [("equipment", .str "EQ-1")])
    [.mkObj [("name", .str "Unit 2")]] (by decide) (by decide) (by decide) (by decide)

/-! ### Enrichment characterisation (claims C3, C5) -/

/-- Spec-side description of the protocol values gathered from one
charge-point: the protocol field's elements when it is a list, the
stringified scalar when truthy, nothing otherwise. -/
def protOfSpec : JVal → List String
  | .obj fs =>
    match pyGetD fs.toList "charging_protocol" with
    | .arr l => l.toList.map pyStr
    | v => if truthy v then [pyStr v] else []
  | _ => []

/-- Spec-side description of the mode value gathered from one charge-point
(first truthy of `mode`, `evcs_mode`). -/
def modeOfSpec : JVal → List String
  | .obj fs =>
    let m := pyOr (pyGetD fs.toList "mode") (pyGetD fs.toList "evcs_mode")
    if truthy m then [pyStr m] else []
  | _ => []

/-- Spec-side description of the equipment value gathered from one
charge-point (first truthy of `id_or_serial_number`, `equipment`, `name`). -/
def equipOfSpec : JVal → List String
  | .obj fs =>
    let e := pyOr (pyGetD fs.toList "id_or_serial_number")
      (pyOr (pyGetD fs.toList "equipment") (pyGetD fs.toList "name"))
    if truthy e then [pyStr e] else []
  | _ => []

/-- All protocol values gathered across a charge-point list. -/
def specProtocols (cps : List JVal) : List String := cps.flatMap protOfSpec

/-- All mode values gathered across a charge-point list. -/
def specModes (cps : List JVal) : List String := cps.flatMap modeOfSpec

/-- All equipment values gathered across a charge-point list. -/
def specEquipments (cps : List JVal) : List String := cps.flatMap equipOfSpec

theorem mem_foldl_setInsert : (xs : List String) → (acc : List String) → (s : String) →
    (s ∈ xs.foldl setInsert acc ↔ s ∈ acc ∨ s ∈ xs)
  | [], acc, s => by simp
  | x :: xs, acc, s => by
    simp only [List.foldl_cons]
    rw [mem_foldl_setInsert xs (setInsert acc x) s, mem_setInsert]
    simp only [List.mem_cons]
    tauto

theorem nodup_foldl_setInsert : (xs : List String) → {acc : List String} → acc.Nodup →
    (xs.foldl setInsert acc).Nodup
  | [], _, h => h
  | x :: xs, acc, h => by
    simp only [List.foldl_cons]
    exact nodup_foldl_setInsert xs (setInsert_nodup h)

/-- Computation of the summary step on a dict charge-point. -/
theorem summarizeCp_obj (acc : List String × List String × List String) (fs : JObj) :
    summarizeCp acc (.obj fs) = .ok
      ((match pyGetD fs.toList "charging_protocol" with
        | .arr l => l.toList.foldl (fun a p => setInsert a (pyStr p)) acc.1
        | v => if truthy v then setInsert acc.1 (pyStr v) else acc.1),
       (if truthy (pyOr (pyGetD fs.toList "mode") (pyGetD fs.toList "evcs_mode")) then
          setInsert acc.2.1 (pyStr (pyOr (pyGetD fs.toList "mode") (pyGetD fs.toList "evcs_mode")))
        else acc.2.1),
       (if truthy (pyOr (pyGetD fs.toList "id_or_serial_number")
            (pyOr (pyGetD fs.toList "equipment") (pyGetD fs.toList "name"))) then
          setInsert acc.2.2 (pyStr (pyOr (pyGetD fs.toList "id_or_serial_number")
            (pyOr (pyGetD fs.toList "equipment") (pyGetD fs.toList "name"))))
        else acc.2.2)) := rfl

/-- Membership and duplicate-freedom of the three accumulated sets after
one successful summary step. -/
theorem summarizeCp_ok_elim {acc out : List String × List String × List String} {cp : JVal}
    (h : summarizeCp acc cp = .ok out) :
    (∀ s, s ∈ out.1 ↔ s ∈ acc.1 ∨ s ∈ protOfSpec cp) ∧
    (∀ s, s ∈ out.2.1 ↔ s ∈ acc.2.1 ∨ s ∈ modeOfSpec cp) ∧
    (∀ s, s ∈ out.2.2 ↔ s ∈ acc.2.2 ∨ s ∈ equipOfSpec cp) ∧
    (acc.1.Nodup → out.1.Nodup) ∧ (acc.2.1.Nodup → out.2.1.Nodup) ∧
    (acc.2.2.Nodup → out.2.2.Nodup) := by
  cases cp with
  | null => simp [summarizeCp, cpGet] at h
  | bool b => simp [summarizeCp, cpGet] at h
  | num n => simp [summarizeCp, cpGet] at h
  | str s => simp [summarizeCp, cpGet] at h
  | arr a => simp [summarizeCp, cpGet] at h
  | obj fs =>
    rw [summarizeCp_obj] at h
    injection h with h'
    subst h'
    refine ⟨?_, ?_, ?_, ?_, ?_, ?_⟩
    · intro s
      simp only [protOfSpec]
      cases hp : pyGetD fs.toList "charging_protocol" with
      | arr l =>
        simp only
        rw [← List.foldl_map pyStr setInsert]
        exact mem_foldl_setInsert _ _ s
      | null => simp [truthy]
      | bool b =>
        cases b <;> simp [truthy, mem_setInsert] <;> tauto
      | num n =>
        by_cases hn : truthy (JVal.num n) = true <;>
          simp [hn, mem_setInsert] <;> tauto
      | str s' =>
        by_cases hn : truthy (JVal.str s') = true <;>
          simp [hn, mem_setInsert] <;> tauto
      | obj o =>
        by_cases hn : truthy (JVal.obj o) = true <;>
          simp [hn, mem_setInsert] <;> tauto
    · intro s
      simp only [modeOfSpec]
      by_cases hm : truthy (pyOr (pyGetD fs.toList "mode") (pyGetD fs.toList "evcs_mode")) = true <;>
        simp [hm, mem_setInsert] <;> tauto
    · intro s
      simp only [equipOfSpec]
      by_cases he : truthy (pyOr (pyGetD fs.toList "id_or_serial_number")
          (pyOr (pyGetD fs.toList "equipment") (pyGetD fs.toList "name"))) = true <;>
        simp [he, mem_setInsert] <;> tauto
    · intro hnd
      simp only
      cases hp : pyGetD fs.toList "charging_protocol" with
      | arr l =>
        dsimp only
        rw [← List.foldl_map pyStr setInsert]
        exact nodup_foldl_setInsert _ hnd
      | null => simpa [truthy] using hnd
      | bool b => cases b <;> simp [truthy, setInsert_nodup hnd, hnd]
      | num n =>
        by_cases hn : truthy (JVal.num n) = true <;> simp [hn, setInsert_nodup hnd, hnd]
      | str s' =>
        by_cases hn : truthy (JVal.str s') = true <;> simp [hn, setInsert_nodup hnd, hnd]
      | obj o =>
        by_cases hn : truthy (JVal.obj o) = true <;> simp [hn, setInsert_nodup hnd, hnd]
    · intro hnd
      by_cases hm : truthy (pyOr (pyGetD fs.toList "mode") (pyGetD fs.toList "evcs_mode")) = true <;>
        simp [hm, setInsert_nodup hnd, hnd]
    · intro hnd
      by_cases he : truthy (pyOr (pyGetD fs.toList "id_or_serial_number")
          (pyOr (pyGetD fs.toList "equipment") (pyGetD fs.toList "name"))) = true <;>
        simp [he, setInsert_nodup hnd, hnd]

set_option maxHeartbeats 1000000 in
/-- Membership and duplicate-freedom of the three accumulated sets after a
successful summary pass. -/
theorem summarize_ok_elim : (cps : List JVal) →
    (acc out : List String × List String × List String) →
    summarize acc cps = .ok out →
    (∀ s, s ∈ out.1 ↔ s ∈ acc.1 ∨ s ∈ specProtocols cps) ∧
    (∀ s, s ∈ out.2.1 ↔ s ∈ acc.2.1 ∨ s ∈ specModes cps) ∧
    (∀ s, s ∈ out.2.2 ↔ s ∈ acc.2.2 ∨ s ∈ specEquipments cps) ∧
    (acc.1.Nodup → out.1.Nodup) ∧ (acc.2.1.Nodup → out.2.1.Nodup) ∧
    (acc.2.2.Nodup → out.2.2.Nodup)
  | [], acc, out, h => by
    simp only [summarize, Except.ok.injEq] at h
    subst h
    simp [specProtocols, specModes, specEquipments]
  | cp :: rest, acc, out, h => by
    simp only [summarize] at h
    cases hs : summarizeCp acc cp with
    | error e => rw [hs] at h; exact absurd h (by simp)
    | ok acc' =>
      rw [hs] at h
      have hstep := summarizeCp_ok_elim hs
      have ih := summarize_ok_elim rest acc' out h
      refine ⟨?_, ?_, ?_, ?_, ?_, ?_⟩
      · intro s
        rw [ih.1 s, hstep.1 s]
        simp only [specProtocols, List.flatMap_cons, List.mem_append]
        tauto
      · intro s
        rw [ih.2.1 s, hstep.2.1 s]
        simp only [specModes, List.flatMap_cons, List.mem_append]
        tauto
      · intro s
        rw [ih.2.2.1 s, hstep.2.2.1 s]
        simp only [specEquipments, List.flatMap_cons, List.mem_append]
        tauto
      · exact fun hnd => ih.2.2.2.1 (hstep.2.2.2.1 hnd)
      · exact fun hnd => ih.2.2.2.2.1 (hstep.2.2.2.2.1 hnd)
      · exact fun hnd => ih.2.2.2.2.2 (hstep.2.2.2.2.2 hnd)

/-- Inversion of a successful enrichment. -/
theorem enrichStation_ok_elim {st st' : PyDict} (h : enrichStation st = .ok st') :
    ∃ ps ms eqs, summarize ([], [], []) (extract_chargepoints st) = .ok (ps, ms, eqs) ∧
      st' = delKey (setKey (setKey (setKey st "Charging Protocols" (.str (joinSet ps)))
        "EVCS Modes" (.str (joinSet ms))) "Charging Equipments" (.str (joinSet eqs)))
        "chargepoints_summary" := by
  simp only [enrichStation] at h
  cases hs : summarize ([], [], []) (extract_chargepoints st) with
  | error e => rw [hs] at h; exact absurd h (by simp)
  | ok t =>
    obtain ⟨ps, ms, eqs⟩ := t
    rw [hs] at h
    injection h with h'
    exact ⟨ps, ms, eqs, rfl, h'.symm⟩

/-- Lookups into an enriched record: the three derived fields hold the
written values, `chargepoints` is untouched, `chargepoints_summary` is
gone, and any other key is untouched. -/
theorem lookup_enriched (st : PyDict) (vP vM vE : JVal) :
    lookupKV (delKey (setKey (setKey (setKey st "Charging Protocols" vP) "EVCS Modes" vM)
      "Charging Equipments" vE) "chargepoints_summary") "Charging Protocols" = some vP ∧
    lookupKV (delKey (setKey (setKey (setKey st "Charging Protocols" vP) "EVCS Modes" vM)
      "Charging Equipments" vE) "chargepoints_summary") "EVCS Modes" = some vM ∧
    lookupKV (delKey (setKey (setKey (setKey st "Charging Protocols" vP) "EVCS Modes" vM)
      "Charging Equipments" vE) "chargepoints_summary") "Charging Equipments" = some vE ∧
    lookupKV (delKey (setKey (setKey (setKey st "Charging Protocols" vP) "EVCS Modes" vM)
      "Charging Equipments" vE) "chargepoints_summary") "chargepoints"
      = lookupKV st "chargepoints" ∧
    lookupKV (delKey (setKey (setKey (setKey st "Charging Protocols" vP) "EVCS Modes" vM)
      "Charging Equipments" vE) "chargepoints_summary") "chargepoints_summary" = none := by
  refine ⟨?_, ?_, ?_, ?_, ?_⟩
  · rw [lookupKV_delKey, if_neg (by decide), lookupKV_setKey_ne _ _ (by decide),
      lookupKV_setKey_ne _ _ (by decide), lookupKV_setKey_self]
  · rw [lookupKV_delKey, if_neg (by decide), lookupKV_setKey_ne _ _ (by decide),
      lookupKV_setKey_self]
  · rw [lookupKV_delKey, if_neg (by decide), lookupKV_setKey_self]
  · rw [lookupKV_delKey, if_neg (by decide), lookupKV_setKey_ne _ _ (by decide),
      lookupKV_setKey_ne _ _ (by decide), lookupKV_setKey_ne _ _ (by decide)]
  · rw [lookupKV_delKey, if_pos rfl]

/-- `extract_chargepoints` only reads the `chargepoints` value. -/
theorem extract_chargepoints_congr {st₁ st₂ : PyDict}
    (h : lookupKV st₁ "chargepoints" = lookupKV st₂ "chargepoints") :
    extract_chargepoints st₁ = extract_chargepoints st₂ := by
  simp [extract_chargepoints, pyGetD, h]

/-- When every element is a direct charge-point record, the whole stored
list is extracted. -/
theorem extract_chargepoints_direct {st : PyDict} {a : JArr}
    (h : lookupKV st "chargepoints" = some (.arr a))
    (hd : ∀ cp ∈ a.toList, isDirectCp cp = true) :
    extract_chargepoints st = a.toList := by
  cases ht : a.toList with
  | nil => simp [extract_chargepoints, pyGetD, h, ht]
  | cons first rest =>
    have hdf : isDirectCp first = true := hd first (ht ▸ List.mem_cons_self first rest)
    simp [extract_chargepoints, pyGetD, h, ht, hdf]

/-- Gathered-value membership only depends on the multiset of charge-points. -/
theorem mem_flatMap_perm {l₁ l₂ : List JVal} (f : JVal → List String)
    (h : List.Perm l₁ l₂) (s : String) : s ∈ l₁.flatMap f ↔ s ∈ l₂.flatMap f := by
  simp only [List.mem_flatMap]
  constructor
  · rintro ⟨cp, hc, hsc⟩
    exact ⟨cp, h.mem_iff.1 hc, hsc⟩
  · rintro ⟨cp, hc, hsc⟩
    exact ⟨cp, h.mem_iff.2 hc, hsc⟩

theorem joinSet_eq_of_mem_iff {l₁ l₂ : List String} (h₁ : l₁.Nodup) (h₂ : l₂.Nodup)
    (h : ∀ s, s ∈ l₁ ↔ s ∈ l₂) : joinSet l₁ = joinSet l₂ := by
  simp only [joinSet]
  rw [sortStrs_eq_of_mem_iff h₁ h₂ h]

/-- C3 (amended): enrichment is a fixpoint after one application — re-running
the Enricher returns the already-enriched record unchanged, so the three
derived strings are stable; and the three derived strings are invariant
under permutations of the charge-point list whenever every element is a
direct charge-point record (a dict with a `mode` or `id_or_serial_number`
key), so that the first-element shape test decides the same branch.  (An
arbitrary permutation may flip that branch; see the counterexample.) -/
theorem C3_amended_idempotent_and_direct_perm_invariant :
    (∀ st st', enrichStation st = .ok st' → enrichStation st' = .ok st') ∧
    (∀ st (a₁ a₂ : JArr) r₁ r₂, lookupKV st "chargepoints" = some (.arr a₁) →
      List.Perm a₁.toList a₂.toList →
      (∀ cp ∈ a₁.toList, isDirectCp cp = true) →
      enrichStation st = .ok r₁ →
      enrichStation (setKey st "chargepoints" (.arr a₂)) = .ok r₂ →
      lookupKV r₁ "Charging Protocols" = lookupKV r₂ "Charging Protocols" ∧
      lookupKV r₁ "EVCS Modes" = lookupKV r₂ "EVCS Modes" ∧
      lookupKV r₁ "Charging Equipments" = lookupKV r₂ "Charging Equipments") := by
  constructor
  · intro st st' h
    obtain ⟨ps, ms, eqs, hsum, rfl⟩ := enrichStation_ok_elim h
    have hf := lookup_enriched st (.str (joinSet ps)) (.str (joinSet ms)) (.str (joinSet eqs))
    have hcps := extract_chargepoints_congr hf.2.2.2.1
    simp only [enrichStation, hcps, hsum]
    rw [setKey_of_lookup _ hf.1, setKey_of_lookup _ hf.2.1, setKey_of_lookup _ hf.2.2.1,
      delKey_of_lookup_none hf.2.2.2.2]
  · intro st a₁ a₂ r₁ r₂ hlk hperm hdir h1 h2
    obtain ⟨ps₁, ms₁, eq₁, hs₁, rfl⟩ := enrichStation_ok_elim h1
    obtain ⟨ps₂, ms₂, eq₂, hs₂, rfl⟩ := enrichStation_ok_elim h2
    have hx₁ : extract_chargepoints st = a₁.toList := extract_chargepoints_direct hlk hdir
    have hdir₂ : ∀ cp ∈ a₂.toList, isDirectCp cp = true :=
      fun cp hc => hdir cp (hperm.mem_iff.2 hc)
    have hx₂ : extract_chargepoints (setKey st "chargepoints" (.arr a₂)) = a₂.toList :=
      extract_chargepoints_direct (lookupKV_setKey_self st _ _) hdir₂
    rw [hx₁] at hs₁
    rw [hx₂] at hs₂
    have c₁ := summarize_ok_elim _ _ _ hs₁
    have c₂ := summarize_ok_elim _ _ _ hs₂
    have hf₁ := lookup_enriched st
      (.str (joinSet ps₁)) (.str (joinSet ms₁)) (.str (joinSet eq₁))
    have hf₂ := lookup_enriched (setKey st "chargepoints" (.arr a₂))
      (.str (joinSet ps₂)) (.str (joinSet ms₂)) (.str (joinSet eq₂))
    have hP : joinSet ps₁ = joinSet ps₂ := by
      refine joinSet_eq_of_mem_iff (c₁.2.2.2.1 List.nodup_nil) (c₂.2.2.2.1 List.nodup_nil) ?_
      intro s
      have m1 := c₁.1 s
      have m2 := c₂.1 s
      simp only [List.not_mem_nil, false_or] at m1 m2
      rw [m1, m2]
      exact mem_flatMap_perm protOfSpec hperm s
    have hM : joinSet ms₁ = joinSet ms₂ := by
      refine joinSet_eq_of_mem_iff (c₁.2.2.2.2.1 List.nodup_nil) (c₂.2.2.2.2.1 List.nodup_nil) ?_
      intro s
      have m1 := c₁.2.1 s
      have m2 := c₂.2.1 s
      simp only [List.not_mem_nil, false_or] at m1 m2
      rw [m1, m2]
      exact mem_flatMap_perm modeOfSpec hperm s
    have hE : joinSet eq₁ = joinSet eq₂ := by
      refine joinSet_eq_of_mem_iff (c₁.2.2.2.2.2 List.nodup_nil) (c₂.2.2.2.2.2 List.nodup_nil) ?_
      intro s
      have m1 := c₁.2.2.1 s
      have m2 := c₂.2.2.1 s
      simp only [List.not_mem_nil, false_or] at m1 m2
      rw [m1, m2]
      exact mem_flatMap_perm equipOfSpec hperm s
    exact ⟨by rw [hf₁.1, hf₂.1, hP], by rw [hf₁.2.1, hf₂.2.1, hM],
      by rw [hf₁.2.2.1, hf₂.2.2.1, hE]⟩

def cpA3 : JVal := .mkObj [("mode", .str "AC")]

def cpW3 : JVal := .mkObj [("chargepoints", .mkArr [.mkObj [("mode", .str "DC")]])]

def stX3 : PyDict := [("id", .str "SX"), ("chargepoints", .mkArr [cpA3, cpW3])]

def stY3 : PyDict := setKey stX3 "chargepoints" (.mkArr [cpW3, cpA3])

/-- Counterexample to C3 as stated: permuting a mixed-shape charge-point
list flips the first-element shape test of `extract_chargepoints`, and the
derived `EVCS Modes` string changes ("AC" versus "DC"). -/
theorem C3_counterexample :
    List.Perm (JArr.ofList [cpW3, cpA3]).toList (JArr.ofList [cpA3, cpW3]).toList ∧
    stY3 = setKey stX3 "chargepoints" (.arr (JArr.ofList [cpW3, cpA3])) ∧
    (match enrichStation stX3 with
      | .ok r => lookupKV r "EVCS Modes"
      | .error _ => none)
      = some (.str "AC") ∧
    (match enrichStation stY3 with
      | .ok r => lookupKV r "EVCS Modes"
      | .error _ => none)
      = some (.str "DC") := by
  refine ⟨?_, rfl, by decide, by decide⟩
  rw [JArr.arrRoundTrip, JArr.arrRoundTrip]
  exact List.Perm.swap cpA3 cpW3 []

def cp3a : JVal := .mkObj [("mode", .str "AC"), ("id_or_serial_number", .str "E1")]

def cp3b : JVal := .mkObj [("mode", .str "DC")]

def stW3 : PyDict := [("id", .str "S3"), ("chargepoints", .mkArr [cp3a, cp3b])]

def stW3b : PyDict := setKey stW3 "chargepoints" (.mkArr [cp3b, cp3a])

def rW3 : PyDict :=
  match enrichStation stW3 with
  | .ok r => r
  | .error _ => []

def rW3b : PyDict :=
  match enrichStation stW3b with
  | .ok r => r
  | .error _ => []

/-- Witness for the amended C3 at a concrete direct-record station. -/
theorem C3_witness :
    enrichStation rW3 = .ok rW3 ∧
    lookupKV rW3 "EVCS Modes" = lookupKV rW3b "EVCS Modes" ∧
    lookupKV rW3 "EVCS Modes" = some (.str "AC, DC") := by
  have h := C3_amended_idempotent_and_direct_perm_invariant
  refine ⟨h.1 stW3 rW3 rfl, ?_, by decide⟩
  have h2 := h.2 stW3 (JArr.ofList [cp3a, cp3b]) (JArr.ofList [cp3b, cp3a]) rW3 rW3b
    (by decide)
    (by rw [JArr.arrRoundTrip, JArr.arrRoundTrip]; exact List.Perm.swap cp3b cp3a [])
    (by decide) rfl rfl
  exact h2.2.1

def e5a : JVal := .mkObj [("station", .mkObj [("id", .str "S1")]),
  ("id_or_serial_number", .str "E1"), ("charging_protocol", .str "CCS")]

def e5b : JVal := .mkObj [("station", .mkObj [("id", .str "S1")]),
  ("id_or_serial_number", .str "E2"),
  ("charging_protocol", .mkArr [.str "CCS", .str "Type2"])]

/-- C5: each derived field is the comma-join of the ascending duplicate-free
list of the stringified values gathered from the extracted charge-points
(protocol scalars and list elements all collected); and concretely, two
entries for station S1 with protocols `"CCS"` and `["CCS","Type2"]`
aggregate to a single record whose `Charging Protocols` is `"CCS, Type2"`. -/
theorem C5_enricher_sorted_joined_sets :
    (∀ st st', enrichStation st = .ok st' →
      lookupKV st' "Charging Protocols" = some (.str (", ".intercalate
        (sortStrs (specProtocols (extract_chargepoints st)).dedup))) ∧
      lookupKV st' "EVCS Modes" = some (.str (", ".intercalate
        (sortStrs (specModes (extract_chargepoints st)).dedup))) ∧
      lookupKV st' "Charging Equipments" = some (.str (", ".intercalate
        (sortStrs (specEquipments (extract_chargepoints st)).dedup)))) ∧
    ((runEntries [] [e5a, e5b]).1.map
      (fun p => match enrichStation p.2 with
        | .ok r => lookupKV r "Charging Protocols"
        | .error _ => none))
      = [some (.str "CCS, Type2")] := by
  constructor
  · intro st st' h
    obtain ⟨ps, ms, eqs, hsum, rfl⟩ := enrichStation_ok_elim h
    have c := summarize_ok_elim _ _ _ hsum
    have hf := lookup_enriched st (.str (joinSet ps)) (.str (joinSet ms)) (.str (joinSet eqs))
    have hP : sortStrs ps = sortStrs (specProtocols (extract_chargepoints st)).dedup := by
      refine sortStrs_eq_of_mem_iff (c.2.2.2.1 List.nodup_nil) (List.nodup_dedup _) ?_
      intro s
      have m := c.1 s
      simp only [List.not_mem_nil, false_or] at m
      rw [m, List.mem_dedup]
    have hM : sortStrs ms = sortStrs (specModes (extract_chargepoints st)).dedup := by
      refine sortStrs_eq_of_mem_iff (c.2.2.2.2.1 List.nodup_nil) (List.nodup_dedup _) ?_
      intro s
      have m := c.2.1 s
      simp only [List.not_mem_nil, false_or] at m
      rw [m, List.mem_dedup]
    have hE : sortStrs eqs = sortStrs (specEquipments (extract_chargepoints st)).dedup := by
      refine sortStrs_eq_of_mem_iff (c.2.2.2.2.2 List.nodup_nil) (List.nodup_dedup _) ?_
      intro s
      have m := c.2.2.1 s
      simp only [List.not_mem_nil, false_or] at m
      rw [m, List.mem_dedup]
    refine ⟨?_, ?_, ?_⟩
    · rw [hf.1]
      simp only [joinSet, hP]
    · rw [hf.2.1]
      simp only [joinSet, hM]
    · rw [hf.2.2.1]
      simp only [joinSet, hE]
  · decide

def stW5 : PyDict := [("id", .str "S1"), ("chargepoints", .mkArr [e5a, e5b])]

def rW5 : PyDict :=
  match enrichStation stW5 with
  | .ok r => r
  | .error _ => []

/-- Witness for C5 at the concrete S1 scenario. -/
theorem C5_witness :
    lookupKV rW5 "Charging Protocols" = some (.str (", ".intercalate
      (sortStrs (specProtocols (extract_chargepoints stW5)).dedup))) ∧
    lookupKV rW5 "Charging Protocols" = some (.str "CCS, Type2") := by
  have h := C5_enricher_sorted_joined_sets
  exact ⟨(h.1 stW5 rW5 rfl).1, by decide⟩

/-- Counterexample to C2 as stated: a run whose stations never mention
`station_id`, `company_id`, `evcs_establishment_name` or `region` makes
`flat_df[priority_cols + other_cols]` raise a `KeyError` — the absent
priority columns are not included as empty columns; no flattened export is
produced at all. -/
theorem C2_counterexample :
    process_and_export_data [[("id", .str "S1")]]
      = .error "KeyError: priority columns not in index" := rfl

/-- C2 (amended): whenever the flattened export succeeds, its columns are
exactly the seven priority columns in fixed order followed by the remaining
discovered columns in discovery order — and success requires every priority
column to occur in at least one row; a priority column absent from every
row makes the column selection raise a `KeyError` instead of being included
as an empty column. -/
theorem C2_amended_priority_columns (stations : List PyDict) (out : ExportOut)
    (h : process_and_export_data stations = .ok out) :
    out.cols = priorityCols
      ++ (dfColumns out.rows).filter (fun c => ¬priorityCols.contains c) ∧
    out.cols.take 7 = priorityCols ∧
    ∀ c ∈ priorityCols, c ∈ dfColumns out.rows := by
  simp only [process_and_export_data] at h
  cases he : enrichAll stations with
  | error e => rw [he] at h; exact absurd h (by simp)
  | ok enriched =>
    rw [he] at h
    dsimp only at h
    cases hr : flatRowsAll enriched with
    | error e => rw [hr] at h; exact absurd h (by simp)
    | ok rows =>
      rw [hr] at h
      dsimp only at h
      cases hc : selectColumns (dfColumns rows) with
      | error e => rw [hc] at h; exact absurd h (by simp)
      | ok cols =>
        rw [hc] at h
        dsimp only at h
        injection h with h'
        subst h'
        simp only [selectColumns] at hc
        by_cases hall : priorityCols.all (fun c => (dfColumns rows).contains c) = true
        · rw [if_pos hall] at hc
          injection hc with hc'
          subst hc'
          refine ⟨rfl, ?_, ?_⟩
          · have h7 : priorityCols.length = 7 := rfl
            rw [← h7]
            exact List.take_left _ _
          · intro c hcp
            have h2 := List.all_eq_true.1 hall c hcp
            simpa using h2
        · rw [if_neg hall] at hc
          exact absurd hc (by simp)

def stW2 : PyDict := [("station_id", .str "S2"), ("company_id", .str "C1"),
  ("evcs_establishment_name", .str "Estab"), ("region", .str "NCR"),
  ("chargepoints", .mkArr [.mkObj [("mode", .str "AC"),
    ("id_or_serial_number", .str "E1"), ("charging_protocol", .str "CCS")]])]

def outW2 : ExportOut :=
  match process_and_export_data [stW2] with
  | .ok o => o
  | .error _ => ⟨[], [], [], 0, 0⟩

/-- Witness for the amended C2 at a concrete full station. -/
theorem C2_witness :
    outW2.cols.take 7 = priorityCols ∧
    outW2.cols = priorityCols
      ++ (dfColumns outW2.rows).filter (fun c => ¬priorityCols.contains c) := by
  have h := C2_amended_priority_columns [stW2] outW2 rfl
  exact ⟨h.2.1, h.1⟩

theorem flatCpRows_ok_length : (cps : List JVal) → (base : PyDict) → (rows : List PyDict) →
    flatCpRows base cps = .ok rows → rows.length = cps.length
  | [], _, rows, h => by
    simp only [flatCpRows, Except.ok.injEq] at h
    rw [← h]
    rfl
  | cp :: rest, base, rows, h => by
    simp only [flatCpRows] at h
    cases h1 : flatCpRow base cp with
    | error e => rw [h1] at h; exact absurd h (by simp)
    | ok row =>
      rw [h1] at h
      cases h2 : flatCpRows base rest with
      | error e => rw [h2] at h; exact absurd h (by simp)
      | ok rs =>
        rw [h2] at h
        injection h with h'
        rw [← h']
        simp [flatCpRows_ok_length rest base rs h2]

theorem flatStationRows_ok_length {st : PyDict} {rows : List PyDict}
    (h : flatStationRows st = .ok rows) :
    rows.length = max 1 (extract_chargepoints st).length := by
  simp only [flatStationRows] at h
  cases hx : extract_chargepoints st with
  | nil =>
    rw [hx] at h
    dsimp only at h
    injection h with h'
    rw [← h']
    simp
  | cons c cs =>
    rw [hx] at h
    dsimp only at h
    rw [flatCpRows_ok_length _ _ _ h]
    simp

theorem flatRowsAll_ok_length : (sts : List PyDict) → (rows : List PyDict) →
    flatRowsAll sts = .ok rows →
    rows.length = (sts.map (fun st => max 1 (extract_chargepoints st).length)).sum
  | [], rows, h => by
    simp only [flatRowsAll, Except.ok.injEq] at h
    rw [← h]
    rfl
  | st :: rest, rows, h => by
    simp only [flatRowsAll] at h
    cases h1 : flatStationRows st with
    | error e => rw [h1] at h; exact absurd h (by simp)
    | ok rs =>
      rw [h1] at h
      cases h2 : flatRowsAll rest with
      | error e => rw [h2] at h; exact absurd h (by simp)
      | ok more =>
        rw [h2] at h
        injection h with h'
        rw [← h']
        simp [List.length_append, flatStationRows_ok_length h1,
          flatRowsAll_ok_length rest more h2]

/-- The placeholder row of a charge-point-less station. -/
theorem flatStationRows_empty {st : PyDict} (h : extract_chargepoints st = []) :
    ∃ r, flatStationRows st = .ok [r] ∧
      lookupKV r "Charging Equipment" = some (.str "") ∧
      lookupKV r "Charging Protocol" = some (.str "") ∧
      lookupKV r "EVCS mode" = some (.str "") ∧
      ∀ k, k ≠ "Charging Equipment" → k ≠ "Charging Protocol" → k ≠ "EVCS mode" →
        lookupKV r k = lookupKV st k := by
  refine ⟨setKey (setKey (setKey st "Charging Equipment" (.str "")) "Charging Protocol"
    (.str "")) "EVCS mode" (.str ""), by simp [flatStationRows, h], ?_, ?_, ?_, ?_⟩
  · rw [lookupKV_setKey_ne _ _ (by decide), lookupKV_setKey_ne _ _ (by decide)]
    exact lookupKV_setKey_self _ _ _
  · rw [lookupKV_setKey_ne _ _ (by decide)]
    exact lookupKV_setKey_self _ _ _
  · exact lookupKV_setKey_self _ _ _
  · intro k h1 h2 h3
    rw [lookupKV_setKey_ne _ _ h3, lookupKV_setKey_ne _ _ h2, lookupKV_setKey_ne _ _ h1]

/-- C4: the flattened projection has exactly `max 1 n` rows per station
(`n` the extracted charge-point count), the returned count is that length,
and a station with no extracted charge-points contributes exactly one row
whose three charge-point columns are empty strings. -/
theorem C4_flat_row_count (stations : List PyDict) (out : ExportOut)
    (h : process_and_export_data stations = .ok out) :
    out.rows.length
      = (out.enriched.map (fun st => max 1 (extract_chargepoints st).length)).sum ∧
    out.rowsCount = out.rows.length ∧
    (∀ st rows, flatStationRows st = .ok rows →
      rows.length = max 1 (extract_chargepoints st).length) ∧
    (∀ st, extract_chargepoints st = [] →
      ∃ r, flatStationRows st = .ok [r] ∧
        lookupKV r "Charging Equipment" = some (.str "") ∧
        lookupKV r "Charging Protocol" = some (.str "") ∧
        lookupKV r "EVCS mode" = some (.str "")) := by
  simp only [process_and_export_data] at h
  cases he : enrichAll stations with
  | error e => rw [he] at h; exact absurd h (by simp)
  | ok enriched =>
    rw [he] at h
    dsimp only at h
    cases hr : flatRowsAll enriched with
    | error e => rw [hr] at h; exact absurd h (by simp)
    | ok rows =>
      rw [hr] at h
      dsimp only at h
      cases hc : selectColumns (dfColumns rows) with
      | error e => rw [hc] at h; exact absurd h (by simp)
      | ok cols =>
        rw [hc] at h
        dsimp only at h
        injection h with h'
        subst h'
        refine ⟨flatRowsAll_ok_length _ _ hr, rfl, ?_, ?_⟩
        · intro st rows' hrows
          exact flatStationRows_ok_length hrows
        · intro st hempty
          obtain ⟨r, h1, h2, h3, h4, _⟩ := flatStationRows_empty hempty
          exact ⟨r, h1, h2, h3, h4⟩

def stW4 : PyDict := [("station_id", .str "S4"), ("company_id", .str "C1"),
  ("evcs_establishment_name", .str "E"), ("region", .str "NCR")]

def outW4 : ExportOut :=
  match process_and_export_data [stW4] with
  | .ok o => o
  | .error _ => ⟨[], [], [], 0, 0⟩

/-- Witness for C4 at a concrete charge-point-less station. -/
theorem C4_witness :
    outW4.rows.length
      = (outW4.enriched.map (fun st => max 1 (extract_chargepoints st).length)).sum ∧
    outW4.rows.length = 1 ∧
    outW4.rowsCount = 1 := by
  have h := C4_flat_row_count [stW4] outW4 rfl
  exact ⟨h.1, by decide, by decide⟩

theorem processResponses_append : (l1 l2 : List RespOutcome) → (st : AggState) →
    processResponses st (l1 ++ l2) = processResponses (processResponses st l1) l2
  | [], _, _ => rfl
  | r :: rs, l2, st => by
    simp only [List.cons_append, processResponses]
    exact processResponses_append rs l2 _

theorem processResponses_factor : (rs : List RespOutcome) → (st : AggState) →
    processResponses st rs
      = ⟨(processResponses ⟨st.stations, []⟩ rs).stations,
         st.errLog ++ (processResponses ⟨st.stations, []⟩ rs).errLog⟩
  | [], st => by cases st; simp [processResponses]
  | r :: rs, st => by
    have ih := processResponses_factor rs
    rcases hr : respStep st.stations r with ⟨d', log⟩
    simp only [processResponses, hr]
    rw [ih ⟨d', st.errLog ++ log⟩, ih ⟨d', [] ++ log⟩]
    simp [List.append_assoc]

/-- C6: a response whose decode/parse stage fails — uniformly logging one
warning and leaving the station dict untouched, which is exactly what the
`except` clause of lines 191-194 does — changes nothing in the stations
produced by the run: the remaining responses are processed as if the bad
response were absent, and the warning is in the error log.  A decode/parse
exception (`RespOutcome.parseError`) is such a response. -/
theorem C6_parse_failure_skips_only_that_response (st0 : AggState)
    (rs1 rs2 : List RespOutcome) (r : RespOutcome) (w : String)
    (hbad : ∀ d, respStep d r = (d, [w])) :
    (processResponses st0 (rs1 ++ r :: rs2)).stations
      = (processResponses st0 (rs1 ++ rs2)).stations ∧
    w ∈ (processResponses st0 (rs1 ++ r :: rs2)).errLog ∧
    (∀ d msg, respStep d (RespOutcome.parseError msg) = (d, [parseWarn msg])) := by
  rw [processResponses_append rs1 (r :: rs2) st0, processResponses_append rs1 rs2 st0]
  refine ⟨?_, ?_, fun d msg => rfl⟩
  · simp only [processResponses, hbad]
    rw [processResponses_factor rs2 ⟨(processResponses st0 rs1).stations,
        (processResponses st0 rs1).errLog ++ [w]⟩,
      processResponses_factor rs2 (processResponses st0 rs1)]
  · simp only [processResponses, hbad]
    rw [processResponses_factor rs2 ⟨(processResponses st0 rs1).stations,
        (processResponses st0 rs1).errLog ++ [w]⟩]
    simp

def e6 : JVal := .mkObj [("station", .mkObj [("id", .str "S1")]), ("mode", .str "AC")]

def r6good : RespOutcome :=
  .payload (.mkObj [("props", .mkObj [("chargepoints", .mkArr [e6])])])

def r6bad : RespOutcome := .parseError "Expecting value: line 1 column 1 (char 0)"

/-- Witness for C6: one bad response among two good ones. -/
theorem C6_witness :
    (processResponses ⟨[], []⟩ [r6good, r6bad, r6good]).stations
      = (processResponses ⟨[], []⟩ [r6good, r6good]).stations ∧
    parseWarn "Expecting value: line 1 column 1 (char 0)"
      ∈ (processResponses ⟨[], []⟩ [r6good, r6bad, r6good]).errLog := by
  have h := C6_parse_failure_skips_only_that_response ⟨[], []⟩ [r6good] [r6good] r6bad
    (parseWarn "Expecting value: line 1 column 1 (char 0)") (fun d => rfl)
  exact ⟨h.1, h.2.1⟩

theorem mem_send_email {x : String} {log : List String} (cfg : Bool)
    (dispatch : Except String Unit) (h : x ∈ log) :
    x ∈ send_email_notification cfg dispatch log := by
  cases cfg with
  | false => exact h
  | true =>
    cases dispatch with
    | ok u => exact h
    | error e => exact List.mem_append_left _ h

/-- C7: when setup and navigation succeed but no station was aggregated,
the run raises `"No station data found!"` (appended to the error log),
takes the failure path — invoking the notifier with `success=False` — and
returns exit code 1. -/
theorem C7_zero_stations_is_fatal (env : ScrapeEnv)
    (hs : env.setupOutcome = .ok ()) (hp : env.preOutcome = .ok ())
    (hempty : (processResponses ⟨[], []⟩ env.responses).stations = []) :
    (runModel env).exitCode = 1 ∧
    (runModel env).notifyCalls = [false] ∧
    "No station data found!" ∈ (runModel env).errLog := by
  have hap : attemptPipeline env
      = ((processResponses ⟨[], []⟩ env.responses).errLog ++ ["No station data found!"],
         .error "No station data found!") := by
    simp [attemptPipeline, hs, hp, extract_station_data, hempty]
  have h1 : (runModel env).exitCode = 1 := by simp [runModel, hap]
  have h2 : (runModel env).notifyCalls = [false] := by simp [runModel, hap]
  have h3 : "No station data found!" ∈ (runModel env).errLog := by
    simp only [runModel, hap]
    exact mem_send_email _ _ (by simp)
  exact ⟨h1, h2, h3⟩

def env7 : ScrapeEnv := ⟨.ok (), .ok (), [], .ok (), .ok (), false, .ok ()⟩

/-- Witness for C7 at a run that intercepted no responses. -/
theorem C7_witness :
    (runModel env7).exitCode = 1 ∧
    (runModel env7).notifyCalls = [false] ∧
    "No station data found!" ∈ (runModel env7).errLog :=
  C7_zero_stations_is_fatal env7 rfl rfl rfl

/-- C8: the exit code never depends on the email configuration or on the
dispatch outcome — it is 0 exactly when the scrape/save/export pipeline
succeeded and 1 otherwise — and a dispatch exception under a configured
API key is caught and logged. -/
theorem C8_notification_failures_never_escalate (env : ScrapeEnv) (c₁ c₂ : Bool)
    (d₁ d₂ : Except String Unit) (e : String) :
    (runModel { env with emailConfigured := c₁, notifyDispatch := d₁ }).exitCode
      = (runModel { env with emailConfigured := c₂, notifyDispatch := d₂ }).exitCode ∧
    ((runModel env).exitCode = 0 ↔ (attemptPipeline env).2.isOk = true) ∧
    ((runModel env).exitCode = 1 ↔ (attemptPipeline env).2.isOk = false) ∧
    (env.emailConfigured = true → env.notifyDispatch = .error e →
      ("Email notification error: " ++ e) ∈ (runModel env).errLog) := by
  have hindep : ∀ c d,
      attemptPipeline { env with emailConfigured := c, notifyDispatch := d }
        = attemptPipeline env := fun c d => rfl
  rcases hap : attemptPipeline env with ⟨log, res⟩
  refine ⟨?_, ?_, ?_, ?_⟩
  · simp only [runModel, hindep, hap]
    cases res <;> rfl
  · simp only [runModel, hap]
    cases res <;> simp [Except.isOk, Except.toBool]
  · simp only [runModel, hap]
    cases res <;> simp [Except.isOk, Except.toBool]
  · intro hc hd
    simp only [runModel, hap]
    cases res <;> simp [send_email_notification, hc, hd]

def e8 : JVal := .mkObj [("station", .mkObj [("id", .str "S8"), ("station_id", .str "S8"),
  ("company_id", .str "C1"), ("evcs_establishment_name", .str "E"), ("region", .str "NCR")]),
  ("mode", .str "AC"), ("id_or_serial_number", .str "EQ1"), ("charging_protocol", .str "CCS")]

def r8 : RespOutcome :=
  .payload (.mkObj [("props", .mkObj [("chargepoints", .mkArr [e8])])])

def env8 : ScrapeEnv := ⟨.ok (), .ok (), [r8], .ok (), .ok (), true, .error "API timeout"⟩

/-- Witness for C8: a failed dispatch on a successful run is logged and the
exit code is still 0. -/
theorem C8_witness :
    (runModel env8).exitCode = 0 ∧
    ("Email notification error: " ++ "API timeout") ∈ (runModel env8).errLog := by
  have h := C8_notification_failures_never_escalate env8 true true
    (.error "API timeout") (.error "API timeout") "API timeout"
  exact ⟨(h.2.1).2 (by decide), h.2.2.2 rfl rfl⟩
